import Mathlib

/-!
Verification of the alert-spooler repository (Go) against its
natural-language specification, by shallow embedding in Lean 4.

The embedding mirrors the Go sources under `spooler/`:
  normalize.go   (timestamp-stripping normalizer and truncated SHA-256 fingerprint)
  cccc.go        (4-letter code tagger)
  flatten.go     (bounded JSON flattener)
  structured-data encoder, alert-level extraction, move/finalize helpers
  the Runner orchestrator (ingest, archive+send, resend, finalize, replay,
  monthly store selection, deadman heartbeat).

Modelling conventions, used throughout:
  * Go strings are Lean `String`s; byte-level operations work on the UTF-8
    encoding, computed by `utf8Bytes` below (Go `[]byte(s)`).
  * Go `time.Time` is an `Int` (UTC nanoseconds).  The zero time sentinel is
    modelled as `Option Int` (`none` = `time.Time{}`).  `time.Duration` is an
    `Int` in nanoseconds.
  * Each call to `time.Now()` reads the next instant from an environment
    clock (`Env.clock`), indexed by a tick counter carried in the state.
  * External collaborators (encoding/json decode and marshal, the glob
    expander, time parsing for lag computation, the network socket's
    success/failure) are parameters in `Env`, consumed at their interfaces,
    matching the spec's out-of-scope list.  The SQLite/GORM store is
    modelled as in-memory tables with the exact queries the Runner issues.
  * Character-level Go functions (`strings.ToUpper`, `unicode.IsSpace`) are
    modelled on the ASCII/Latin-1 range they are exercised on.
-/

namespace AlertSpooler

/-! ### Go string primitives -/

/-- Go `unicode.IsSpace` restricted to the Latin-1 range
(`\t \n \v \f \r ' '` plus NEL U+0085 and NBSP U+00A0). -/
def goIsSpace (c : Char) : Bool :=
  c = ' ' || c = '\t' || c = '\n' || c = Char.ofNat 11 || c = Char.ofNat 12 ||
  c = '\r' || c = Char.ofNat 133 || c = Char.ofNat 160

def dropLeadingSpace (l : List Char) : List Char :=
  l.dropWhile goIsSpace

/-- Go `strings.TrimSpace` on the char list. -/
def trimSpaceChars (l : List Char) : List Char :=
  (dropLeadingSpace ((dropLeadingSpace l.reverse).reverse))

def goTrimSpace (s : String) : String :=
  String.mk (trimSpaceChars s.data)

/-- Accumulator pass for `strings.Fields` (current word held reversed). -/
def fieldsAux : List Char → List Char → List (List Char)
  | [], cur => if cur = [] then [] else [cur.reverse]
  | c :: rest, cur =>
    if goIsSpace c then
      if cur = [] then fieldsAux rest [] else cur.reverse :: fieldsAux rest []
    else fieldsAux rest (c :: cur)

/-- Go `strings.Fields`: split around runs of whitespace. -/
def fieldsChars (l : List Char) : List (List Char) :=
  fieldsAux l []

/-- Go `strings.Join(fields, " ")` on char lists. -/
def joinSpace : List (List Char) → List Char
  | [] => []
  | [w] => w
  | w :: rest => w ++ ' ' :: joinSpace rest

/-- Go `strings.ToUpper` on the ASCII range (identity elsewhere; the
configured codes and scanned texts are ASCII). -/
def goUpperChar (c : Char) : Char :=
  if 'a' ≤ c ∧ c ≤ 'z' then Char.ofNat (c.toNat - 32) else c

def goToUpper (s : String) : String :=
  String.mk (s.data.map goUpperChar)

/-- Does `pre` occur at the head of `l`? -/
def startsList : List Char → List Char → Bool
  | [], _ => true
  | _ :: _, [] => false
  | p :: ps, x :: xs => p = x && startsList ps xs

/-- Go `strings.Contains` (substring occurrence; the empty needle matches). -/
def containsList (hay needle : List Char) : Bool :=
  match hay with
  | [] => startsList needle []
  | _ :: rest => startsList needle hay || containsList rest needle

def goContains (s sub : String) : Bool :=
  containsList s.data sub.data

/-- Byte-order string comparison used by Go `sort.Strings`; on UTF-8 this
agrees with code-point order, modelled here on the char lists. -/
def ltChars : List Char → List Char → Bool
  | [], [] => false
  | [], _ :: _ => true
  | _ :: _, [] => false
  | a :: as, b :: bs => a < b || (a = b && ltChars as bs)

def strLe (a b : String) : Bool :=
  !(ltChars b.data a.data)

def insertSorted (a : String) : List String → List String
  | [] => [a]
  | b :: rest => if strLe a b then a :: b :: rest else b :: insertSorted a rest

/-- Go `sort.Strings`. -/
def sortStrings : List String → List String
  | [] => []
  | a :: rest => insertSorted a (sortStrings rest)

/-! ### UTF-8 encoding (Go `[]byte(s)`) -/

def utf8EncodeChar (c : Char) : List Nat :=
  let n := c.toNat
  if n < 128 then [n]
  else if n < 2048 then [192 ||| (n >>> 6), 128 ||| (n &&& 63)]
  else if n < 65536 then
    [224 ||| (n >>> 12), 128 ||| ((n >>> 6) &&& 63), 128 ||| (n &&& 63)]
  else
    [240 ||| (n >>> 18), 128 ||| ((n >>> 12) &&& 63),
     128 ||| ((n >>> 6) &&& 63), 128 ||| (n &&& 63)]

def utf8Bytes (s : String) : List Nat :=
  s.data.foldr (fun c acc => utf8EncodeChar c ++ acc) []

/-! ### SHA-256 (crypto/sha256), over byte lists, words as `Nat % 2^32` -/

def shaK : List Nat :=
  [1116352408, 1899447441, 3049323471, 3921009573, 961987163, 1508970993,
   2453635748, 2870763221, 3624381080, 310598401, 607225278, 1426881987,
   1925078388, 2162078206, 2614888103, 3248222580, 3835390401, 4022224774,
   264347078, 604807628, 770255983, 1249150122, 1555081692, 1996064986,
   2554220882, 2821834349, 2952996808, 3210313671, 3336571891, 3584528711,
   113926993, 338241895, 666307205, 773529912, 1294757372, 1396182291,
   1695183700, 1986661051, 2177026350, 2456956037, 2730485921, 2820302411,
   3259730800, 3345764771, 3516065817, 3600352804, 4094571909, 275423344,
   430227734, 506948616, 659060556, 883997877, 958139571, 1322822218,
   1537002063, 1747873779, 1955562222, 2024104815, 2227730452, 2361852424,
   2428436474, 2756734187, 3204031479, 3329325298]

def shaH0 : List Nat :=
  [1779033703, 3144134277, 1013904242, 2773480762, 1359893119, 2600822924,
   528734635, 1541459225]

def w32 (x : Nat) : Nat := x % 4294967296

def rotr (k x : Nat) : Nat :=
  (x >>> k) ||| w32 (x <<< (32 - k))

def shaCh (e f g : Nat) : Nat := (e &&& f) ^^^ ((e ^^^ 4294967295) &&& g)

def shaMaj (a b c : Nat) : Nat := (a &&& b) ^^^ (a &&& c) ^^^ (b &&& c)

def bigSigma0 (x : Nat) : Nat := rotr 2 x ^^^ rotr 13 x ^^^ rotr 22 x

def bigSigma1 (x : Nat) : Nat := rotr 6 x ^^^ rotr 11 x ^^^ rotr 25 x

def smallSigma0 (x : Nat) : Nat := rotr 7 x ^^^ rotr 18 x ^^^ (x >>> 3)

def smallSigma1 (x : Nat) : Nat := rotr 17 x ^^^ rotr 19 x ^^^ (x >>> 10)

/-- Big-endian bytes of `x`, `k` bytes wide. -/
def natToBytesBE : Nat → Nat → List Nat
  | 0, _ => []
  | k + 1, x => natToBytesBE k (x >>> 8) ++ [x &&& 255]

/-- SHA-256 padding: append `0x80`, zeros to 56 mod 64, then the bit length
as 8 big-endian bytes. -/
def shaPad (m : List Nat) : List Nat :=
  let zeros := (64 + 55 - (m.length % 64)) % 64
  m ++ [128] ++ List.replicate zeros 0 ++ natToBytesBE 8 (8 * m.length)

def bytesToWords : List Nat → List Nat
  | a :: b :: c :: d :: rest => (((a * 256 + b) * 256 + c) * 256 + d) :: bytesToWords rest
  | _ => []

def chunks64F : Nat → List Nat → List (List Nat)
  | 0, _ => []
  | _, [] => []
  | f + 1, l => l.take 64 :: chunks64F f (l.drop 64)

def nextW (w : List Nat) : Nat :=
  let n := w.length
  w32 (smallSigma1 (w.getD (n - 2) 0) + w.getD (n - 7) 0 +
       smallSigma0 (w.getD (n - 15) 0) + w.getD (n - 16) 0)

def extendW : Nat → List Nat → List Nat
  | 0, w => w
  | f + 1, w => extendW f (w ++ [nextW w])

structure Sha8 where
  a : Nat
  b : Nat
  c : Nat
  d : Nat
  e : Nat
  f : Nat
  g : Nat
  h : Nat

def shaRound (st : Sha8) (kw : Nat × Nat) : Sha8 :=
  let t1 := w32 (st.h + bigSigma1 st.e + shaCh st.e st.f st.g + kw.1 + kw.2)
  let t2 := w32 (bigSigma0 st.a + shaMaj st.a st.b st.c)
  { a := w32 (t1 + t2), b := st.a, c := st.b, d := st.c,
    e := w32 (st.d + t1), f := st.e, g := st.f, h := st.g }

def shaCompress (hs : List Nat) (block : List Nat) : List Nat :=
  let ws := extendW 48 (bytesToWords block)
  let st0 : Sha8 :=
    { a := hs.getD 0 0, b := hs.getD 1 0, c := hs.getD 2 0, d := hs.getD 3 0,
      e := hs.getD 4 0, f := hs.getD 5 0, g := hs.getD 6 0, h := hs.getD 7 0 }
  let st := (shaK.zip ws).foldl shaRound st0
  [w32 (hs.getD 0 0 + st.a), w32 (hs.getD 1 0 + st.b),
   w32 (hs.getD 2 0 + st.c), w32 (hs.getD 3 0 + st.d),
   w32 (hs.getD 4 0 + st.e), w32 (hs.getD 5 0 + st.f),
   w32 (hs.getD 6 0 + st.g), w32 (hs.getD 7 0 + st.h)]

def hexDigit (n : Nat) : Char :=
  if n < 10 then Char.ofNat (48 + n) else Char.ofNat (97 + (n - 10))

def wordToHex (x : Nat) : List Char :=
  [hexDigit ((x >>> 28) &&& 15), hexDigit ((x >>> 24) &&& 15),
   hexDigit ((x >>> 20) &&& 15), hexDigit ((x >>> 16) &&& 15),
   hexDigit ((x >>> 12) &&& 15), hexDigit ((x >>> 8) &&& 15),
   hexDigit ((x >>> 4) &&& 15), hexDigit (x &&& 15)]

/-- Hex digest of the SHA-256 of a byte list
(Go `hex.EncodeToString(sha256.Sum256(bytes)[:])`). -/
def sha256HexBytes (m : List Nat) : String :=
  let padded := shaPad m
  let blocks := chunks64F (padded.length + 1) padded
  let hs := blocks.foldl shaCompress shaH0
  String.mk (hs.foldr (fun w acc => wordToHex w ++ acc) [])

def sha256Hex (s : String) : String :=
  sha256HexBytes (utf8Bytes s)

/-! ### normalize.go — timestamp patterns and `NormalizeText`

Each of the eight `regexp.MustCompile` patterns is embedded as a matcher
returning the remainder of the input after a match at the current position
(`none` when there is no match there).  The patterns are sequences of fixed
character classes; the only quantifiers are `{1,2}` and `{3,6}` (greedy, and
always followed by a non-digit literal or the end of the pattern, so the
greedy-first alternative order below coincides with Go's backtracking) and
one optional trailing group. -/

/-- A pattern piece: consume input, return the rest on success. -/
abbrev PatP := List Char → Option (List Char)

def pLit (c : Char) : PatP := fun s =>
  match s with
  | x :: rest => if x = c then some rest else none
  | [] => none

/-- Exactly `n` ASCII digits (`\d{n}`). -/
def pDigits : Nat → PatP
  | 0 => fun s => some s
  | n + 1 => fun s =>
    match s with
    | x :: rest => if x.isDigit then pDigits n rest else none
    | [] => none

/-- `\d{1,2}`, greedy (two digits preferred). -/
def pD12 : PatP := fun s =>
  match pDigits 2 s with
  | some r => some r
  | none => pDigits 1 s

/-- `\d{3,6}`, greedy (longest first). -/
def pD36 : PatP := fun s =>
  match pDigits 6 s with
  | some r => some r
  | none => match pDigits 5 s with
    | some r => some r
    | none => match pDigits 4 s with
      | some r => some r
      | none => pDigits 3 s

def pSeq (ps : List PatP) : PatP := fun s =>
  ps.foldl (fun acc p => acc.bind p) (some s)

/-- `(p)?`, greedy. -/
def pOpt (p : PatP) : PatP := fun s =>
  match p s with
  | some r => some r
  | none => some s

/-- `\d{4}-\d{2}-\d{2} \d{2}:\d{2}:\d{2}` -/
def pat1 : PatP :=
  pSeq [pDigits 4, pLit '-', pDigits 2, pLit '-', pDigits 2, pLit ' ',
        pDigits 2, pLit ':', pDigits 2, pLit ':', pDigits 2]

/-- `\d{4}-\d{2}-\d{2}T\d{2}:\d{2}:\d{2}` -/
def pat2 : PatP :=
  pSeq [pDigits 4, pLit '-', pDigits 2, pLit '-', pDigits 2, pLit 'T',
        pDigits 2, pLit ':', pDigits 2, pLit ':', pDigits 2]

/-- `\d{4}-\d{2}-\d{2}T\d{2}:\d{2}` -/
def pat3 : PatP :=
  pSeq [pDigits 4, pLit '-', pDigits 2, pLit '-', pDigits 2, pLit 'T',
        pDigits 2, pLit ':', pDigits 2]

/-- `\d{4}-\d{2}-\d{2}T\d{2}:\d{2}:\d{2}\.\d{3,6}` -/
def pat4 : PatP :=
  pSeq [pDigits 4, pLit '-', pDigits 2, pLit '-', pDigits 2, pLit 'T',
        pDigits 2, pLit ':', pDigits 2, pLit ':', pDigits 2, pLit '.', pD36]

/-- `\d{4}-\d{2}-\d{2} \d{2}:\d{2}:\d{2}\.\d{3,6}` -/
def pat5 : PatP :=
  pSeq [pDigits 4, pLit '-', pDigits 2, pLit '-', pDigits 2, pLit ' ',
        pDigits 2, pLit ':', pDigits 2, pLit ':', pDigits 2, pLit '.', pD36]

/-- `\d{4}\.\d{2}\.\d{2}T\d{2}:\d{2}:\d{2}(\.\d{3,6})?` -/
def pat6 : PatP :=
  pSeq [pDigits 4, pLit '.', pDigits 2, pLit '.', pDigits 2, pLit 'T',
        pDigits 2, pLit ':', pDigits 2, pLit ':', pDigits 2,
        pOpt (pSeq [pLit '.', pD36])]

/-- `\d{4}/\d{2}/\d{2} \d{2}:\d{2}` -/
def pat7 : PatP :=
  pSeq [pDigits 4, pLit '/', pDigits 2, pLit '/', pDigits 2, pLit ' ',
        pDigits 2, pLit ':', pDigits 2]

/-- `\d{4}-\d{1,2}-\d{1,2} \d{1,2}:\d{1,2}:\d{1,2}` -/
def pat8 : PatP :=
  pSeq [pDigits 4, pLit '-', pD12, pLit '-', pD12, pLit ' ',
        pD12, pLit ':', pD12, pLit ':', pD12]

/-- The fixed pattern list, in source order (`timestampPatterns`). -/
def timestampPatterns : List PatP :=
  [pat1, pat2, pat3, pat4, pat5, pat6, pat7, pat8]

/-- `re.ReplaceAllString(s, "")`: delete successive leftmost matches.
Every pattern here consumes at least one character on success, so fuel equal
to the input length is exact. -/
def replaceAllEmptyF (p : PatP) : Nat → List Char → List Char
  | 0, s => s
  | _ + 1, [] => []
  | f + 1, c :: rest =>
    match p (c :: rest) with
    | some r =>
      if r.length < (c :: rest).length then replaceAllEmptyF p f r
      else c :: replaceAllEmptyF p f rest
    | none => c :: replaceAllEmptyF p f rest

def replaceAllEmpty (p : PatP) (s : List Char) : List Char :=
  replaceAllEmptyF p s.length s

/-- `NormalizeText` (normalize.go): strip all timestamp-pattern matches in
pattern order, trim, collapse whitespace runs to single spaces. -/
def NormalizeText (input : String) : String :=
  let s := timestampPatterns.foldl (fun s re => replaceAllEmpty re s) input.data
  let s := trimSpaceChars s
  String.mk (joinSpace (fieldsChars s))

/-- `HashNormalized` (normalize.go): hex SHA-256 of the normalized text,
truncated to `hexLen` characters (full digest when `hexLen <= 0` or at least
the full length).  `hexLen` is a Go `int`, modelled as `Int`. -/
def HashNormalized (normalized : String) (hexLen : Int) : String :=
  let full := sha256Hex normalized
  if hexLen ≤ 0 ∨ hexLen ≥ (full.length : Int) then full
  else String.mk (full.data.take hexLen.toNat)

/-! ### cccc.go — `ExtractCCCC` -/

/-- `ExtractCCCC` (cccc.go): "none" on an empty code list; otherwise scan the
upper-cased raw text for the first upper-cased, trimmed, non-blank code that
occurs as a substring; "none" when none matches. -/
def ExtractCCCC (text : String) (codes : List String) : String :=
  if codes.length = 0 then "none"
  else
    let upper := goToUpper text
    go upper codes
where
  go (upper : String) : List String → String
    | [] => "none"
    | c0 :: rest =>
      let c := goToUpper (goTrimSpace c0)
      if c = "" then go upper rest
      else if goContains upper c then c
      else go upper rest

/-! ### JSON values (decoded `any`) and flatten.go

Decoded JSON is modelled as a closed variant; objects carry their fields as
an ordered association list which stands for one iteration order of the Go
map (the spec notes map iteration order need not be stable).  Go numbers
decode to float64; this model carries integers, which covers every value the
flatten/extract logic inspects structurally. -/

inductive JVal where
  | jnull : JVal
  | jbool : Bool → JVal
  | jnum : Int → JVal
  | jstr : String → JVal
  | jarr : List JVal → JVal
  | jobj : List (String × JVal) → JVal

/-- First binding for a key (Go map lookup, assoc-list model). -/
def mapGet {α : Type} : List (String × α) → String → Option α
  | [], _ => none
  | (k, v) :: rest, key => if k = key then some v else mapGet rest key

def mapGetD {α : Type} (m : List (String × α)) (key : String) (d : α) : α :=
  (mapGet m key).getD d

/-- Go map assignment `m[k] = v` on the assoc-list model: replace the
existing binding or append a new one. -/
def mapSet {α : Type} : List (String × α) → String → α → List (String × α)
  | [], key, v => [(key, v)]
  | (k, w) :: rest, key, v =>
    if k = key then (k, v) :: rest else (k, w) :: mapSet rest key v

def mapKeys {α : Type} (m : List (String × α)) : List String :=
  (m.map Prod.fst).eraseDups

structure FlattenOptions where
  MaxDepth : Int
  MaxKeys : Int

/-- `flattenInto` (flatten.go), with explicit recursion fuel (one unit per
nesting level; the depth guard stops recursion at `MaxDepth`, so
`MaxDepth + 2` units always suffice — see `FlattenJSON`).  The Go early
`return`s inside the child loops once `len(out) >= MaxKeys` are output-
equivalent to continuing the loop, because the entry guard of every later
child call returns immediately; the loops below rely on that. -/
def flattenInto (opts : FlattenOptions) :
    Nat → List (String × JVal) → String → JVal → Int → List (String × JVal)
  | 0, out, _, _, _ => out
  | f + 1, out, pfx, value, depth =>
    if (out.length : Int) ≥ opts.MaxKeys then out
    else if depth > opts.MaxDepth then
      if pfx ≠ "" then mapSet out pfx (JVal.jstr ("<max_depth:" ++ toString opts.MaxDepth ++ ">"))
      else out
    else
      match value with
      | JVal.jobj fields =>
        fields.foldl
          (fun o kv =>
            let key := if pfx ≠ "" then pfx ++ "." ++ kv.1 else kv.1
            flattenInto opts f o key kv.2 (depth + 1))
          out
      | JVal.jarr xs =>
        (xs.enum.foldl
          (fun o ci =>
            let idx := toString ci.1
            let key := if pfx ≠ "" then pfx ++ "[" ++ idx ++ "]" else idx
            flattenInto opts f o key ci.2 (depth + 1))
          out)
      | v =>
        if pfx = "" then mapSet out "value" v
        else mapSet out pfx v

/-- `FlattenJSON` (flatten.go): defaults MaxDepth 16 / MaxKeys 5000 for
non-positive options, then flattens from depth 0 into an empty map. -/
def FlattenJSON (value : JVal) (opts0 : FlattenOptions) : List (String × JVal) :=
  let opts : FlattenOptions :=
    { MaxDepth := if opts0.MaxDepth ≤ 0 then 16 else opts0.MaxDepth,
      MaxKeys := if opts0.MaxKeys ≤ 0 then 5000 else opts0.MaxKeys }
  flattenInto opts (opts.MaxDepth.toNat + 2) [] "" value 0

/-! ### Alert level (NormalizeAlertLevel / ExtractAlertLevel) -/

/-- `fmt.Sprint` of a decoded JSON value, as far as the level extraction
needs it (strings print verbatim, integers in decimal, booleans as
true/false, nil as Go prints it; containers never normalize to a level). -/
def jSprint : JVal → String
  | JVal.jstr s => s
  | JVal.jnum n => toString n
  | JVal.jbool b => if b then "true" else "false"
  | JVal.jnull => "<nil>"
  | JVal.jarr _ => "[...]"
  | JVal.jobj _ => "map[...]"

def goToLower (s : String) : String :=
  String.mk (s.data.map (fun c => if 'A' ≤ c ∧ c ≤ 'Z' then Char.ofNat (c.toNat + 32) else c))

/-- `NormalizeAlertLevel`: warn/warning/1 → warning; error/critical/2..5 →
critical; else unknown. -/
def NormalizeAlertLevel (v : String) : String :=
  let s := goToLower (goTrimSpace v)
  if s = "error" ∨ s = "critical" ∨ s = "2" ∨ s = "3" ∨ s = "4" ∨ s = "5" then "critical"
  else if s = "warn" ∨ s = "warning" ∨ s = "1" then "warning"
  else "unknown"

/-- Lower-cased extension of a path (Go `filepath.Ext`: from the last dot in
the final element; "" when there is none). -/
def pathExt (path : String) : String :=
  let base := String.mk ((path.data.reverse.takeWhile (fun c => c != '/')).reverse)
  if base.data.contains '.' then
    String.mk ('.' :: (base.data.reverse.takeWhile (fun c => c != '.')).reverse)
  else ""


/-- `filepath.Base` (slash-separated paths as used throughout the tests). -/
def filepathBase (p : String) : String :=
  if p = "" then "."
  else
    let trimmed := (p.data.reverse.dropWhile (fun c => c == '/')).reverse
    if trimmed = [] then "/"
    else String.mk ((trimmed.reverse.takeWhile (fun c => c != '/')).reverse)

/-- `ExtractAlertLevel`: explicit status/level/severity field of an object
wins; otherwise fall back on the file extension (.warn → warning,
.alarm → critical, else unknown). -/
def ExtractAlertLevel (item : JVal) (sourcePath : String) : String :=
  let fromField :=
    match item with
    | JVal.jobj m =>
      match mapGet m "status" with
      | some v => some (NormalizeAlertLevel (jSprint v))
      | none =>
        match mapGet m "level" with
        | some v => some (NormalizeAlertLevel (jSprint v))
        | none =>
          match mapGet m "severity" with
          | some v => some (NormalizeAlertLevel (jSprint v))
          | none => none
    | _ => none
  match fromField with
  | some lvl => lvl
  | none =>
    let ext := goToLower (pathExt sourcePath)
    if ext = ".warn" then "warning"
    else if ext = ".alarm" then "critical"
    else "unknown"

/-- `inferSourceType`: extension without the dot (warn / alarm / other). -/
def inferSourceType (path : String) : String :=
  let ext := goToLower (pathExt path)
  if ext = ".warn" then "warn"
  else if ext = ".alarm" then "alarm"
  else if ext = "" then ""
  else String.mk (ext.data.drop 1)

/-- `inferAlertType`: directory hints, then extension fallback. -/
def inferAlertType (path : String) : String :=
  let p := goToLower path
  if goContains p "/dev/" then "dev"
  else if goContains p "/iec/" then "iec"
  else if goContains p "/business/" then "business"
  else if goContains p "/general/" then "general"
  else if goToLower (pathExt path) = ".alarm" then "dev"
  else "unknown"

/-! ### Structured-data encoder (`buildStructuredData`, `escapeSDParam`) -/

/-- `escapeSDParam`: backslash, double quote and closing bracket are
escaped; newlines and carriage returns collapse to spaces. -/
def escapeSDParam (v : String) : String :=
  let step (target : Char) (ins : List Char) (l : List Char) : List Char :=
    l.foldr (fun c acc => if c = target then ins ++ acc else c :: acc) []
  let d := v.data
  let d := step '\\' ['\\', '\\'] d
  let d := step '"' ['\\', '"'] d
  let d := step ']' ['\\', ']'] d
  let d := step '\n' [' '] d
  let d := step '\r' [' '] d
  String.mk d

/-- The fixed preferred key order of `buildStructuredData` (note the tenth
key is `cccc`). -/
def preferredOrder : List String :=
  ["job", "service", "env", "site", "cluster", "filename", "alert_type",
   "alert_level", "hash", "cccc", "replay", "deadman"]

def sdItem (k v : String) : String :=
  " " ++ k ++ "=\"" ++ escapeSDParam v ++ "\""

def sjoin : List String → String
  | [] => ""
  | s :: rest => s ++ sjoin rest

/-- One step of the preferred-key loop of `buildStructuredData`: look the
key up, skip absent and blank values, otherwise remember the key as seen
and append the rendered item. -/
def sdStep (kv : List (String × String)) (acc : List String × String)
    (k : String) : List String × String :=
  match mapGet kv k with
  | none => acc
  | some v =>
    if goTrimSpace v = "" then acc
    else (k :: acc.1, acc.2 ++ sdItem k v)

/-- `buildStructuredData` (runner): default id "cndp"; preferred keys first
in fixed order, skipping absent and blank values and remembering what was
emitted; remaining non-blank keys afterward in sorted order. -/
def buildStructuredData (sdID : String) (kv : List (String × String)) : String :=
  let sdID := if sdID = "" then "cndp" else sdID
  let start := "[" ++ sdID
  let pref := preferredOrder.foldl (sdStep kv) ([], start)
  let seen := pref.1
  let extraKeys := (mapKeys kv).filter
    (fun k => !seen.contains k && goTrimSpace (mapGetD kv k "") != "")
  let sortedExtras := sortStrings extraKeys
  let out := sortedExtras.foldl (fun acc k => acc ++ sdItem k (mapGetD kv k "")) pref.2
  out ++ "]"

/-- Modelled from the spec's words (§4.5 / the structured-data contract), for
comparison with `buildStructuredData`: render `[id …]` with a default id,
the keys of a given preferred list first in that order (omitting absent and
blank values), then all remaining non-blank keys sorted ascending.  The
claim's preferred list names its tenth key `tag`; the code's names it
`cccc` — both lists are given below so the difference can be settled. -/
def specStructuredData (pref : List String) (sdID : String)
    (kv : List (String × String)) : String :=
  let sdID := if sdID = "" then "cndp" else sdID
  let prefPart := sjoin (pref.filterMap (fun k =>
    match mapGet kv k with
    | none => none
    | some v => if goTrimSpace v = "" then none else some (sdItem k v)))
  let extras := sortStrings ((mapKeys kv).filter
    (fun k => !pref.contains k && goTrimSpace (mapGetD kv k "") != ""))
  let extraPart := sjoin (extras.map (fun k => sdItem k (mapGetD kv k "")))
  "[" ++ sdID ++ prefPart ++ extraPart ++ "]"

/-- The preferred list exactly as the claim words it (tenth key `tag`). -/
def claimPreferredOrder : List String :=
  ["job", "service", "env", "site", "cluster", "filename", "alert_type",
   "alert_level", "hash", "tag", "replay", "deadman"]

/-! ### Data model (models.go) -/

structure ProcessedFile where
  id : Nat := 0
  path : String := ""
  sha256 : String := ""
  sizeBytes : Int := 0
  modUnixNano : Int := 0
  processedAt : Int := 0
  allSent : Bool := false
  deleted : Bool := false
  deletedAt : Option Int := none
  lastError : String := ""
deriving DecidableEq, Repr

structure SpoolEvent where
  id : Nat := 0
  ingestedAt : Int := 0
  sourcePath : String := ""
  sourceType : String := ""
  alertType : String := ""
  alertLevel : String := ""
  cccc : String := ""
  eventIndex : Int := 0
  fileSHA256 : String := ""
  rawContent : String := ""
  eventJSON : String := ""
  flatJSON : String := ""
  normalized : String := ""
  contentHash : String := ""
  sentSyslog : Bool := false
  sendError : String := ""
  sentAt : Option Int := none
  archivedAt : Int := 0
deriving DecidableEq, Repr

/-- One SQLite store file (rows held in insertion = primary-key order,
with the auto-increment counters). -/
structure DBState where
  files : List ProcessedFile := []
  events : List SpoolEvent := []
  nextFileId : Nat := 1
  nextEventId : Nat := 1
deriving DecidableEq, Repr

structure FSFile where
  path : String := ""
  content : String := ""
  modUnixNano : Int := 0
deriving DecidableEq, Repr

inductive SendKind where
  | fresh : SendKind
  | resend : SendKind
  | replay : SendKind
  | deadman : SendKind
deriving DecidableEq, Repr

/-- One `SendRFC5424Timeout` call: arguments, outcome, and which Runner
call site issued it. -/
structure SendRec where
  appName : String := ""
  sd : String := ""
  msg : String := ""
  timeout : Int := 0
  ok : Bool := true
  kind : SendKind := SendKind.fresh
deriving DecidableEq, Repr

structure InputSpec where
  Glob : String := ""
  AlertType : String := ""
  ErrorDir : String := ""
deriving DecidableEq, Repr

structure RunnerConfig where
  DBPath : String := ""
  DBFolder : String := ""
  DBPrefix : String := ""
  JobLabel : String := ""
  InputGlobs : List String := []
  Inputs : List InputSpec := []
  SyslogAddr : String := ""
  ServiceLabel : String := ""
  HashHexLen : Int := 0
  CCCCEnabled : Bool := false
  CCCCCodes : List String := []
  DeleteAfterSend : Bool := false
  Timeout : Int := 0
  DeadmanToken : String := ""
  ReplayFrom : Option Int := none
  FixedLabels : List (String × String) := []
deriving DecidableEq, Repr

structure RunStats where
  FilesIngested : Int := 0
  EventsNew : Int := 0
  EventsSentOK : Int := 0
  EventsSentErr : Int := 0
  EventsReplayOK : Int := 0
  EventsReplayErr : Int := 0
  FilesDeleted : Int := 0
  MaxLag : Int := 0
deriving DecidableEq, Repr

/-- Machine state of the Runner: the monthly store files (keyed by the
YYYYMM number parsed from their names; key 0 stands for the legacy single
store), the currently open store, the filesystem, the log of network sends,
the tick counter feeding the clock, the per-cycle stats, and the Runner's
(mutable) configuration. -/
structure M where
  cfg : RunnerConfig := {}
  stores : List (Int × DBState) := []
  curKey : Option Int := none
  fs : List FSFile := []
  sends : List SendRec := []
  tick : Nat := 0
  stats : RunStats := {}
deriving DecidableEq, Repr

/-- External collaborators, consumed at their interfaces. -/
structure Env where
  /-- successive values of `time.Now()` (UTC nanoseconds by tick) -/
  clock : Nat → Int := fun _ => 0
  /-- year*100+month of an instant (time library) -/
  ym : Int → Int := fun _ => 0
  /-- outcome of the n-th network send (the socket) -/
  sendOK : Nat → Bool := fun _ => true
  /-- `err.Error()` text when the n-th send fails -/
  sendErrMsg : Nat → String := fun _ => "send error"
  /-- `json.Unmarshal` -/
  decode : String → Option JVal := fun _ => none
  /-- `json.Marshal` of a decoded value (total on decoded values) -/
  marshal : JVal → String := fun _ => ""
  /-- the marshalled `{source, event_index, event, flat}` payload -/
  marshalPayload : String → Int → String → String → String := fun _ _ _ _ => ""
  /-- the marshalled deadman message (status, error, start, end, stats) -/
  deadmanBody : String → String → Int → Int → RunStats → String := fun _ _ _ _ _ => ""
  /-- `extractEventTime` (time-format parsing; `none` for absent or zero) -/
  eventTime : JVal → Option Int := fun _ => none
  /-- `expandGlobWithDoubleStar` (filepath.Glob / WalkDir) -/
  glob : String → List String := fun _ => []

def assocGet {α : Type} : List (Int × α) → Int → Option α
  | [], _ => none
  | (k, v) :: rest, key => if k = key then some v else assocGet rest key

def assocSet {α : Type} : List (Int × α) → Int → α → List (Int × α)
  | [], key, v => [(key, v)]
  | (k, w) :: rest, key, v =>
    if k = key then (k, v) :: rest else (k, w) :: assocSet rest key v

/-- Current store (`r.db`); an empty store if none is open, which the
control flow never exercises after `ensureDBForNow`. -/
def getDB (m : M) : DBState :=
  match m.curKey with
  | none => {}
  | some k => (assocGet m.stores k).getD {}

def setDB (m : M) (db : DBState) : M :=
  match m.curKey with
  | none => m
  | some k => { m with stores := assocSet m.stores k db }

/-- One `time.Now()` read. -/
def rnow (env : Env) (m : M) : Int × M :=
  (env.clock m.tick, { m with tick := m.tick + 1 })

def fsFind (m : M) (path : String) : Option FSFile :=
  m.fs.find? (fun f => f.path == path)

def fsRemove (m : M) (path : String) : M :=
  { m with fs := m.fs.filter (fun f => f.path != path) }

def fsPut (m : M) (f : FSFile) : M :=
  let m' := fsRemove m f.path
  { m' with fs := m'.fs ++ [f] }

/-- One network send: records the call and takes the socket's outcome for
this call index. -/
def doSend (env : Env) (kind : SendKind) (appName sd msg : String)
    (timeout : Int) (m : M) : Bool × M :=
  let ok := env.sendOK m.sends.length
  (ok, { m with sends := m.sends ++ [{ appName := appName, sd := sd, msg := msg,
                                       timeout := timeout, ok := ok, kind := kind }] })

/-! ### Runner plumbing (runner.go part of runner_test.go) -/

def nsPerMs : Int := 1000000

def sendTimeoutCeiling : Int := 3000000000

/-- `remainingTimeout` (pure core): fallback when no deadline; one
millisecond once the deadline has passed; otherwise the smaller of the
remainder and a positive fallback. -/
def remainingTimeout (now : Int) (deadline : Option Int) (fallback : Int) : Int :=
  match deadline with
  | none => fallback
  | some d =>
    let rem := d - now
    if rem ≤ 0 then nsPerMs
    else if fallback ≤ 0 ∨ rem < fallback then rem
    else fallback

def remainingTimeoutM (env : Env) (deadline : Option Int) (fallback : Int)
    (m : M) : Int × M :=
  match deadline with
  | none => (fallback, m)
  | some _ =>
    let (now, m') := rnow env m
    (remainingTimeout now deadline fallback, m')

/-- `isDeadlineExceeded` (reads the clock only when a deadline is set, as
the Go short-circuit does). -/
def isDeadlineExceededM (env : Env) (deadline : Option Int) (m : M) : Bool × M :=
  match deadline with
  | none => (false, m)
  | some d =>
    let (now, m') := rnow env m
    (decide (now > d), m')

def jsonAnyFromString (env : Env) (s : String) : JVal :=
  (env.decode s).getD JVal.jnull

/-- `computeLag`. -/
def computeLag (env : Env) (now : Int) (item : JVal) : Option Int :=
  match env.eventTime item with
  | none => none
  | some ts => if now - ts < 0 then none else some (now - ts)

def statsLag (env : Env) (now : Int) (item : JVal) (st : RunStats) : RunStats :=
  match computeLag env now item with
  | none => st
  | some lag => if lag > st.MaxLag then { st with MaxLag := lag } else st

/-- Lag bookkeeping against the stats in the state (one clock read). -/
def noteLagOfJSON (env : Env) (s : String) (m : M) : M :=
  let (now, m') := rnow env m
  { m' with stats := statsLag env now (jsonAnyFromString env s) m'.stats }

/-- `extractKeyText`: a string `detail` field, else a string `description`
field, else the value marshalled back to JSON. -/
def extractKeyText (env : Env) (item : JVal) : String :=
  match item with
  | JVal.jobj m =>
    match mapGet m "detail" with
    | some (JVal.jstr s) => s
    | _ =>
      match mapGet m "description" with
      | some (JVal.jstr s) => s
      | _ => env.marshal item
  | _ => env.marshal item

/-- `newErrorEvent` (synthetic failed event for decode/build failures). -/
def newErrorEvent (sourcePath sourceType alertType fileSHA raw errText : String)
    (now : Int) : SpoolEvent :=
  { ingestedAt := now, sourcePath := sourcePath, sourceType := sourceType,
    alertType := alertType, alertLevel := "unknown", eventIndex := 0,
    fileSHA256 := fileSHA, rawContent := raw, eventJSON := "\x7b\x7d",
    flatJSON := "\x7b\x7d", normalized := "", contentHash := "",
    sentSyslog := false, sendError := "decode/build error: " ++ errText,
    archivedAt := now }

/-- `buildEvent`: marshal the item and its flattened form, fingerprint the
normalized key text, tag it (only when the code list is non-empty; the
`CCCCEnabled` flag is never consulted), extract the level. -/
def buildEvent (env : Env) (cfg : RunnerConfig) (item : JVal)
    (raw sourcePath sourceType alertType fileSHA : String) (idx : Int)
    (now : Int) : SpoolEvent :=
  let eventJSON := env.marshal item
  let flatJSON := env.marshal (JVal.jobj (FlattenJSON item { MaxDepth := 0, MaxKeys := 0 }))
  let keyText := extractKeyText env item
  let normalized := NormalizeText keyText
  let hash := HashNormalized normalized cfg.HashHexLen
  let cccc := if cfg.CCCCCodes.length > 0 then ExtractCCCC keyText cfg.CCCCCodes else "none"
  let alertLevel := ExtractAlertLevel item sourcePath
  { ingestedAt := now, sourcePath := sourcePath, sourceType := sourceType,
    alertType := alertType, alertLevel := alertLevel, cccc := cccc,
    eventIndex := idx, fileSHA256 := fileSHA, rawContent := raw,
    eventJSON := eventJSON, flatJSON := flatJSON, normalized := normalized,
    contentHash := hash, archivedAt := now }

/-- `toEvents`: arrays yield one event per element (index preserved), any
other value yields a single event at index 0.  `buildEvent`'s only failure
mode in Go is `json.Marshal` on an already-decoded value, which cannot
fail, so the error branches are unreachable and the model is total. -/
def toEvents (env : Env) (cfg : RunnerConfig) (decoded : JVal)
    (raw sourcePath sourceType alertType fileSHA : String) (now : Int) :
    List SpoolEvent :=
  match decoded with
  | JVal.jarr v =>
    v.enum.map (fun ci =>
      buildEvent env cfg ci.2 raw sourcePath sourceType alertType fileSHA (Int.ofNat ci.1) now)
  | v => [buildEvent env cfg v raw sourcePath sourceType alertType fileSHA 0 now]

/-- The structured-data key/value map literal shared by the fresh-send,
resend and replay call sites (replay appends its extra pair). -/
def sdMapForEvent (cfg : RunnerConfig) (filename : String) (ev : SpoolEvent)
    (extra : List (String × String)) : List (String × String) :=
  [("job", cfg.JobLabel), ("service", cfg.ServiceLabel),
   ("env", mapGetD cfg.FixedLabels "env" ""),
   ("site", mapGetD cfg.FixedLabels "site" ""),
   ("cluster", mapGetD cfg.FixedLabels "cluster" ""),
   ("filename", filename), ("alert_type", ev.alertType),
   ("alert_level", if goTrimSpace ev.alertLevel = "" then "unknown" else ev.alertLevel),
   ("hash", ev.contentHash), ("cccc", ev.cccc)] ++ extra

def dbUpdateFiles (db : DBState) (sel : ProcessedFile → Bool)
    (upd : ProcessedFile → ProcessedFile) : DBState :=
  { db with files := db.files.map (fun r => if sel r then upd r else r) }

def dbUpdateEvents (db : DBState) (sel : SpoolEvent → Bool)
    (upd : SpoolEvent → SpoolEvent) : DBState :=
  { db with events := db.events.map (fun r => if sel r then upd r else r) }

/-- `isAlreadyProcessed`: a ProcessedFile row with this (path, sha) exists. -/
def isAlreadyProcessed (db : DBState) (path sha : String) : Bool :=
  db.files.any (fun pf => pf.path == path && pf.sha256 == sha)

/-- `tryDeleteProcessedFile`: remove the file; on success mark the ledger
row deleted with a cleared error, on failure record the error text. -/
def tryDeleteProcessedFile (env : Env) (path sha : String) (m : M) :
    M × Option String :=
  let removeOk := (fsFind m path).isSome
  let r := rnow env m
  let now := r.1
  let m := r.2
  if removeOk then
    let m := fsRemove m path
    let db := dbUpdateFiles (getDB m)
      (fun pf => pf.path == path && pf.sha256 == sha)
      (fun pf => { pf with deleted := true, deletedAt := some now, lastError := "" })
    (setDB m db, none)
  else
    let db := dbUpdateFiles (getDB m)
      (fun pf => pf.path == path && pf.sha256 == sha)
      (fun pf => { pf with lastError := "delete failed: file missing" })
    (setDB m db, some "remove failed")

/-- `MoveFileToDir`: rename into the target directory, suffixing the name
with the current nanosecond count on collision (never overwriting the
first target). -/
def MoveFileToDir (env : Env) (srcPath dstDir : String) (m : M) :
    (Option String × M) :=
  if goTrimSpace dstDir = "" then (none, m)
  else
    match fsFind m srcPath with
    | none => (none, m)
    | some f =>
      let base := filepathBase srcPath
      let dst0 := dstDir ++ "/" ++ base
      if (fsFind m dst0).isSome then
        let r := rnow env m
        let now := r.1
        let m := r.2
        let ext := pathExt base
        let stem := String.mk (base.data.take (base.data.length - ext.data.length))
        let dst := dstDir ++ "/" ++ stem ++ "-" ++ toString now ++ ext
        let m := fsRemove m srcPath
        (some dst, fsPut m { f with path := dst })
      else
        let m := fsRemove m srcPath
        (some dst0, fsPut m { f with path := dst0 })

/-- The per-event body of the archive loop in `archiveAndMarkFile`: stats,
structured data, payload, one bounded send, and the success/failure marks
on the in-memory event. -/
def archiveSendOne (env : Env) (path : String) (deadline : Option Int)
    (ev : SpoolEvent) (m : M) : SpoolEvent × Bool × M :=
  let m := { m with stats := { m.stats with EventsNew := m.stats.EventsNew + 1 } }
  let m := noteLagOfJSON env ev.eventJSON m
  let structured := buildStructuredData "cndp"
    (sdMapForEvent m.cfg (filepathBase path) ev [])
  let payload := env.marshalPayload ev.sourcePath ev.eventIndex ev.eventJSON ev.flatJSON
  let callIdx := m.sends.length
  let rt := remainingTimeoutM env deadline sendTimeoutCeiling m
  let timeout := rt.1
  let rs := doSend env SendKind.fresh "alert-spooler" structured payload timeout rt.2
  let ok := rs.1
  let m := rs.2
  if ok then
    let rn := rnow env m
    let t := rn.1
    let m := rn.2
    let m := { m with stats := { m.stats with EventsSentOK := m.stats.EventsSentOK + 1 } }
    ({ ev with sentSyslog := true, sentAt := some t }, true, m)
  else
    let m := { m with stats := { m.stats with EventsSentErr := m.stats.EventsSentErr + 1 } }
    ({ ev with sentSyslog := false, sendError := env.sendErrMsg callIdx }, false, m)

def archiveSendLoop (env : Env) (path : String) (deadline : Option Int) :
    List SpoolEvent → M → List SpoolEvent × Bool × M
  | [], m => ([], true, m)
  | ev :: rest, m =>
    let r1 := archiveSendOne env path deadline ev m
    let r2 := archiveSendLoop env path deadline rest r1.2.2
    (r1.1 :: r2.1, r1.2.1 && r2.2.1, r2.2.2)

/-- The single transaction of `archiveAndMarkFile`: insert all events plus
the ProcessedFile row (the model's store cannot fail, matching every run the
claims quantify over; a failing transaction in Go leaves both tables
untouched). -/
def dbArchiveTx (db : DBState) (evs : List SpoolEvent) (pf : ProcessedFile) : DBState :=
  let evs' := evs.enum.map (fun ie => { ie.2 with id := db.nextEventId + ie.1 })
  { db with events := db.events ++ evs',
            nextEventId := db.nextEventId + evs.length,
            files := db.files ++ [{ pf with id := db.nextFileId }],
            nextFileId := db.nextFileId + 1 }

/-- The post-send part of `archiveAndMarkFile` (from the `now :=
time.Now()` after the send loop on): write events + file row in one
transaction, then either relocate an undecodable file to the error
directory (marking it deleted) or delete the source file when everything
was sent. -/
def archiveMark (env : Env) (path sha : String) (info : FSFile)
    (events : List SpoolEvent) (allSent : Bool) (errorDir : String)
    (moveToErrorDir : Bool) (m : M) : M × Option String :=
  let rn := rnow env m
  let nowP := rn.1
  let m := rn.2
  let pf : ProcessedFile :=
    { path := path, sha256 := sha, sizeBytes := (utf8Bytes info.content).length,
      modUnixNano := info.modUnixNano, processedAt := nowP,
      allSent := allSent, deleted := false }
  let m := setDB m (dbArchiveTx (getDB m) events pf)
  let m := { m with stats := { m.stats with FilesIngested := m.stats.FilesIngested + 1 } }
  if moveToErrorDir ∧ goTrimSpace errorDir ≠ "" then
    let rm := MoveFileToDir env path errorDir m
    let m := rm.2
    match rm.1 with
    | none =>
      let db := dbUpdateFiles (getDB m)
        (fun r => r.path == path && r.sha256 == sha)
        (fun r => { r with lastError := "move to error_dir failed" })
      (setDB m db, some "move failed")
    | some d =>
      let rn2 := rnow env m
      let now := rn2.1
      let m := rn2.2
      let db := dbUpdateFiles (getDB m)
        (fun r => r.path == path && r.sha256 == sha)
        (fun r => { r with deleted := true, deletedAt := some now,
                           lastError := "moved to error_dir: " ++ d })
      let m := setDB m db
      ({ m with stats := { m.stats with FilesDeleted := m.stats.FilesDeleted + 1 } }, none)
  else
    if m.cfg.DeleteAfterSend ∧ allSent then
      let rd := tryDeleteProcessedFile env path sha m
      match rd.2 with
      | some e => (rd.1, some e)
      | none =>
        ({ rd.1 with stats := { rd.1.stats with FilesDeleted := rd.1.stats.FilesDeleted + 1 } }, none)
    else (m, none)

/-- `archiveAndMarkFile`: send each event, then the transactional marking
part (`archiveMark`). -/
def archiveAndMarkFile (env : Env) (path sha : String) (info : FSFile)
    (events0 : List SpoolEvent) (deadline : Option Int) (errorDir : String)
    (moveToErrorDir : Bool) (m : M) : M × Option String :=
  let ra := archiveSendLoop env path deadline events0 m
  archiveMark env path sha info ra.1 ra.2.1 errorDir moveToErrorDir ra.2.2

/-- `ingestFile`: stat, skip empty files, hash the content, skip
already-processed (path, digest) pairs, decode, build events, then
archive-and-mark.  An unreadable file is out of the model (reads of an
existing file succeed); a missing file is the stat error. -/
def ingestFile (env : Env) (path forcedAlertType errorDir : String)
    (deadline : Option Int) (m : M) : M × Option String :=
  match fsFind m path with
  | none => (m, some "stat error")
  | some f =>
    if (utf8Bytes f.content).length ≤ 0 then (m, none)
    else
      let content := f.content
      let fileSHAHex := sha256Hex content
      if isAlreadyProcessed (getDB m) path fileSHAHex then (m, none)
      else
        let alertType :=
          if goTrimSpace forcedAlertType = "" then inferAlertType path
          else goTrimSpace forcedAlertType
        let sourceType := inferSourceType path
        let raw := content
        match env.decode content with
        | none =>
          let rn := rnow env m
          archiveAndMarkFile env path fileSHAHex f
            [newErrorEvent path sourceType alertType fileSHAHex raw "unmarshal error" rn.1]
            deadline errorDir true rn.2
        | some decoded =>
          let rn := rnow env m
          let events := toEvents env rn.2.cfg decoded raw path sourceType alertType fileSHAHex rn.1
          archiveAndMarkFile env path fileSHAHex f events deadline "" false rn.2

/-- The per-event body of `resendPending`: rebuild structured data and
payload, one bounded send, then update only this row — error text on
failure; sent flag, cleared error and sent-at on success. -/
def resendOne (env : Env) (deadline : Option Int) (ev : SpoolEvent) (m : M) : M :=
  let m := noteLagOfJSON env ev.eventJSON m
  let structured := buildStructuredData "cndp"
    (sdMapForEvent m.cfg (filepathBase ev.sourcePath) ev [])
  let payload := env.marshalPayload ev.sourcePath ev.eventIndex ev.eventJSON ev.flatJSON
  let callIdx := m.sends.length
  let rt := remainingTimeoutM env deadline sendTimeoutCeiling m
  let rs := doSend env SendKind.resend "alert-spooler" structured payload rt.1 rt.2
  let ok := rs.1
  let m := rs.2
  if ok then
    let rn := rnow env m
    let now := rn.1
    let m := rn.2
    let db := dbUpdateEvents (getDB m) (fun r => r.id == ev.id)
      (fun r => { r with sentSyslog := true, sendError := "", sentAt := some now })
    let m := setDB m db
    { m with stats := { m.stats with EventsSentOK := m.stats.EventsSentOK + 1 } }
  else
    let db := dbUpdateEvents (getDB m) (fun r => r.id == ev.id)
      (fun r => { r with sendError := env.sendErrMsg callIdx })
    let m := setDB m db
    { m with stats := { m.stats with EventsSentErr := m.stats.EventsSentErr + 1 } }

def resendLoop (env : Env) (deadline : Option Int) :
    List SpoolEvent → M → M × Option String
  | [], m => (m, none)
  | ev :: rest, m =>
    let rx := isDeadlineExceededM env deadline m
    if rx.1 then (rx.2, some "timeout exceeded")
    else resendLoop env deadline rest (resendOne env deadline ev rx.2)

/-- `resendPending`: retry delivery of every event with `sent_syslog =
false` in the current store, across files. -/
def resendPending (env : Env) (deadline : Option Int) (m : M) : M × Option String :=
  let pending := (getDB m).events.filter (fun ev => ev.sentSyslog == false)
  resendLoop env deadline pending m

/-- The per-row body of `finalizeFiles`: recount total vs sent events of
the file, flip `all_sent` when now complete, then delete the source file
(or mark it deleted when already missing). -/
def finalizeOne (env : Env) (pf : ProcessedFile) (m : M) : M :=
  let db := getDB m
  let total := (db.events.filter
    (fun ev => ev.sourcePath == pf.path && ev.fileSHA256 == pf.sha256)).length
  if total = 0 then m
  else
    let sent := (db.events.filter
      (fun ev => ev.sourcePath == pf.path && ev.fileSHA256 == pf.sha256 &&
                 ev.sentSyslog == true)).length
    let allSent := sent == total
    let m :=
      if allSent && !pf.allSent then
        setDB m (dbUpdateFiles (getDB m) (fun r => r.id == pf.id)
          (fun r => { r with allSent := true, lastError := "" }))
      else m
    if m.cfg.DeleteAfterSend && allSent && !pf.deleted then
      if (fsFind m pf.path).isNone then
        let rn := rnow env m
        let now := rn.1
        let m := rn.2
        setDB m (dbUpdateFiles (getDB m) (fun r => r.id == pf.id)
          (fun r => { r with deleted := true, deletedAt := some now,
                             lastError := "file missing" }))
      else
        let rd := tryDeleteProcessedFile env pf.path pf.sha256 m
        match rd.2 with
        | none =>
          { rd.1 with stats := { rd.1.stats with FilesDeleted := rd.1.stats.FilesDeleted + 1 } }
        | some _ => rd.1
    else m

def finalizeLoop (env : Env) : List ProcessedFile → M → M
  | [], m => m
  | pf :: rest, m => finalizeLoop env rest (finalizeOne env pf m)

/-- `finalizeFiles`: reconcile every file row not yet fully sent or not yet
deleted. -/
def finalizeFiles (env : Env) (m : M) : M × Option String :=
  let pfs := (getDB m).files.filter (fun pf => pf.allSent == false || pf.deleted == false)
  (finalizeLoop env pfs m, none)

/-- `listMonthlyDBs`: the stores whose YYYYMM key falls within
[fromKey, toKey], in ascending filename (= key) order. -/
def listMonthlyDBs (stores : List (Int × DBState)) (fromKey toKey : Int) :
    List (Int × DBState) :=
  sortByKey (stores.filter (fun s => fromKey ≤ s.1 && s.1 ≤ toKey))
where
  insertByKey (x : Int × DBState) : List (Int × DBState) → List (Int × DBState)
    | [] => [x]
    | y :: rest => if x.1 ≤ y.1 then x :: y :: rest else y :: insertByKey x rest
  sortByKey : List (Int × DBState) → List (Int × DBState)
    | [] => []
    | x :: rest => insertByKey x (sortByKey rest)

/-- The per-event body of the replay loop: structured data with the added
`replay="true"` pair, payload, one bounded send, replay counters — and no
store writes. -/
def replayOne (env : Env) (deadline : Option Int) (ev : SpoolEvent) (m : M) : M :=
  let m := noteLagOfJSON env ev.eventJSON m
  let structured := buildStructuredData "cndp"
    (sdMapForEvent m.cfg (filepathBase ev.sourcePath) ev [("replay", "true")])
  let payload := env.marshalPayload ev.sourcePath ev.eventIndex ev.eventJSON ev.flatJSON
  let rt := remainingTimeoutM env deadline sendTimeoutCeiling m
  let rs := doSend env SendKind.replay "alert-spooler" structured payload rt.1 rt.2
  let ok := rs.1
  let m := rs.2
  if ok then
    { m with stats := { m.stats with EventsReplayOK := m.stats.EventsReplayOK + 1 } }
  else
    { m with stats := { m.stats with EventsReplayErr := m.stats.EventsReplayErr + 1 } }

def replayEventLoop (env : Env) (deadline : Option Int) :
    List SpoolEvent → M → M × Option String
  | [], m => (m, none)
  | ev :: rest, m =>
    let rx := isDeadlineExceededM env deadline m
    if rx.1 then (rx.2, some "timeout exceeded")
    else replayEventLoop env deadline rest (replayOne env deadline ev rx.2)

def replayStoreLoop (env : Env) (deadline : Option Int) (fromT : Int) :
    List (Int × DBState) → M → M × Option String
  | [], m => (m, none)
  | (_, db) :: rest, m =>
    let rx := isDeadlineExceededM env deadline m
    if rx.1 then (rx.2, some "timeout exceeded")
    else
      let evs := db.events.filter (fun ev => fromT ≤ ev.archivedAt)
      let re := replayEventLoop env deadline evs rx.2
      match re.2 with
      | some e => (re.1, some e)
      | none => replayStoreLoop env deadline fromT rest re.1

/-- `replayFrom`: requires the monthly-rolling configuration, selects the
stores of [from-month, now-month], and resends their events archived at or
after `fromT`, read-only. -/
def replayFrom (env : Env) (fromT : Int) (deadline : Option Int) (m : M) :
    M × Option String :=
  if goTrimSpace m.cfg.DBFolder = "" then
    (m, some "replay requires DBFolder (monthly rolling DB)")
  else if goTrimSpace m.cfg.DBPrefix = "" then
    (m, some "replay requires DBPrefix (monthly rolling DB)")
  else
    let rn := rnow env m
    let dbs := listMonthlyDBs rn.2.stores (env.ym fromT) (env.ym rn.1)
    replayStoreLoop env deadline fromT dbs rn.2

/-- `ensureDBForNow`: legacy single store when no folder is configured
(key 0); else open — creating it first if needed — the store of the current
month, defaulting the prefix, and remember its key. -/
def ensureDBForNow (env : Env) (m : M) : M × Option String :=
  if goTrimSpace m.cfg.DBFolder = "" then
    if m.curKey.isSome then (m, none)
    else
      let m := { m with curKey := some 0 }
      if (assocGet m.stores 0).isSome then (m, none)
      else ({ m with stores := m.stores ++ [(0, {})] }, none)
  else
    let rn := rnow env m
    let m := rn.2
    let key := env.ym rn.1
    if m.curKey == some key then (m, none)
    else
      let m :=
        if goTrimSpace m.cfg.DBPrefix = "" then
          { m with cfg := { m.cfg with DBPrefix := "alerts_" } }
        else m
      let m := { m with curKey := some key }
      if (assocGet m.stores key).isSome then (m, none)
      else ({ m with stores := m.stores ++ [(key, {})] }, none)

/-- `sendDeadman`: best-effort heartbeat carrying the cycle's counters and
status, tagged with the deadman token. -/
def sendDeadman (env : Env) (deadline : Option Int) (start endT : Int)
    (runErr : Option String) (m : M) : M × Option String :=
  let status := if runErr.isSome then "error" else "ok"
  let errMsg := runErr.getD ""
  let body := env.deadmanBody status errMsg start endT m.stats
  let structured := buildStructuredData "cndp"
    [("job", m.cfg.JobLabel), ("service", m.cfg.ServiceLabel),
     ("env", mapGetD m.cfg.FixedLabels "env" ""),
     ("site", mapGetD m.cfg.FixedLabels "site" ""),
     ("cluster", mapGetD m.cfg.FixedLabels "cluster" ""),
     ("filename", "-"), ("alert_type", "deadman"), ("alert_level", "unknown"),
     ("hash", "deadman"), ("cccc", "none"), ("deadman", m.cfg.DeadmanToken)]
  let rt := remainingTimeoutM env deadline sendTimeoutCeiling m
  let rs := doSend env SendKind.deadman "alert-spooler" structured body rt.1 rt.2
  (rs.2, if rs.1 then none else some "deadman send failed")

/-- `expandGlobs` (legacy patterns): expand each and de-duplicate paths,
keeping first occurrences. -/
def expandGlobs (env : Env) (globs : List String) : List String :=
  go [] globs
where
  addAll (seen : List String) : List String → List String × List String
    | [] => (seen, [])
    | p :: rest =>
      if seen.contains p then addAll seen rest
      else
        let (seen', out) := addAll (seen ++ [p]) rest
        (seen', p :: out)
  go (seen : List String) : List String → List String
    | [] => []
    | g :: rest =>
      let (seen', out) := addAll seen (env.glob g)
      out ++ go seen' rest

structure InputItem where
  Path : String := ""
  AlertType : String := ""
  ErrorDir : String := ""
deriving DecidableEq, Repr

/-- `expandInputs`: expand each input's glob (skipping blank globs) and
de-duplicate paths across inputs, keeping first occurrences with their
input's alert type and error directory. -/
def expandInputs (env : Env) (inputs : List InputSpec) : List InputItem :=
  go [] inputs
where
  addAll (at_ ed : String) (seen : List String) :
      List String → List String × List InputItem
    | [] => (seen, [])
    | p :: rest =>
      if seen.contains p then addAll at_ ed seen rest
      else
        let (seen', out) := addAll at_ ed (seen ++ [p]) rest
        (seen', { Path := p, AlertType := at_, ErrorDir := ed } :: out)
  go (seen : List String) : List InputSpec → List InputItem
    | [] => []
    | i :: rest =>
      if goTrimSpace i.Glob = "" then go seen rest
      else
        let (seen', out) := addAll i.AlertType i.ErrorDir seen (env.glob i.Glob)
        out ++ go seen' rest

def ingestPathsLoop (env : Env) (deadline : Option Int) :
    List String → M → M × Option String
  | [], m => (m, none)
  | p :: rest, m =>
    let rx := isDeadlineExceededM env deadline m
    if rx.1 then (rx.2, some "timeout exceeded")
    else ingestPathsLoop env deadline rest (ingestFile env p "" "" deadline rx.2).1

def ingestItemsLoop (env : Env) (deadline : Option Int) :
    List InputItem → M → M × Option String
  | [], m => (m, none)
  | it :: rest, m =>
    let rx := isDeadlineExceededM env deadline m
    if rx.1 then (rx.2, some "timeout exceeded")
    else ingestItemsLoop env deadline rest
      (ingestFile env it.Path it.AlertType it.ErrorDir deadline rx.2).1

/-- The body of `RunOnce` between the two bookkeeping reads: store
selection, then either the replay-only branch or
ingest → resend → finalize with deadline checks between stages. -/
def runOnceMain (env : Env) (deadline : Option Int) (m : M) : M × Option String :=
  let r0 := ensureDBForNow env m
  match r0.2 with
  | some e => (r0.1, some e)
  | none =>
    let m := r0.1
    match m.cfg.ReplayFrom with
    | some fromT => replayFrom env fromT deadline m
    | none =>
      let paths := expandGlobs env m.cfg.InputGlobs
      let r1 := ingestPathsLoop env deadline paths m
      match r1.2 with
      | some e => (r1.1, some e)
      | none =>
        let m := r1.1
        let items := expandInputs env m.cfg.Inputs
        let r2 := ingestItemsLoop env deadline items m
        match r2.2 with
        | some e => (r2.1, some e)
        | none =>
          let rx := isDeadlineExceededM env deadline r2.1
          if rx.1 then (rx.2, some "timeout exceeded")
          else
            let r3 := resendPending env deadline rx.2
            match r3.2 with
            | some e => (r3.1, some e)
            | none =>
              let rx2 := isDeadlineExceededM env deadline r3.1
              if rx2.1 then (rx2.2, some "timeout exceeded")
              else finalizeFiles env rx2.2

/-- `RunOnce`: fresh stats, deadline from a positive configured timeout,
the main body, and the deferred best-effort deadman heartbeat (sent, with
its error ignored, whenever a token is configured — also on failures). -/
def RunOnce (env : Env) (m : M) : M × Option String :=
  let m := { m with stats := {} }
  let r0 := rnow env m
  let start := r0.1
  let rd : Option Int × M :=
    if r0.2.cfg.Timeout > 0 then
      let r1 := rnow env r0.2
      (some (r1.1 + r1.2.cfg.Timeout), r1.2)
    else (none, r0.2)
  let deadline := rd.1
  let rm := runOnceMain env deadline rd.2
  let runErr := rm.2
  if goTrimSpace rm.1.cfg.DeadmanToken = "" then (rm.1, runErr)
  else
    let rn := rnow env rm.1
    ((sendDeadman env deadline start rn.1 runErr rn.2).1, runErr)

/-- `NewRunner`, validation and defaulting part (the constructor then opens
the store via `ensureDBForNow`): requires a store location, a job label,
inputs and a syslog address; defaults the service label and hash length;
and forces `DeleteAfterSend` to true regardless of the caller's value. -/
def NewRunner (cfg : RunnerConfig) : Except String RunnerConfig :=
  if goTrimSpace cfg.DBFolder = "" ∧ goTrimSpace cfg.DBPath = "" then
    Except.error "DBPath or DBFolder is required"
  else if goTrimSpace cfg.JobLabel = "" then
    Except.error "JobLabel is required"
  else if cfg.InputGlobs.length = 0 ∧ cfg.Inputs.length = 0 then
    Except.error "Inputs or InputGlobs is required"
  else if cfg.SyslogAddr = "" then
    Except.error "SyslogAddr is required"
  else
    let cfg := if cfg.ServiceLabel = "" then { cfg with ServiceLabel := "alerts" } else cfg
    let cfg := if cfg.HashHexLen ≤ 0 then { cfg with HashHexLen := 24 } else cfg
    let cfg := if !cfg.DeleteAfterSend then { cfg with DeleteAfterSend := true } else cfg
    Except.ok cfg

/-- Modelled from the spec (§4.3): the tagger returns "none" for an empty
code list, otherwise the first folded, trimmed, non-blank configured code
occurring as a substring of the folded raw text, or "none". -/
def specTag (text : String) (codes : List String) : String :=
  if codes = [] then "none"
  else
    match ((codes.map (fun c => goToUpper (goTrimSpace c))).filter
            (fun c => c != "")).find? (fun c => goContains (goToUpper text) c) with
    | some c => c
    | none => "none"

def c10InCfg : RunnerConfig :=
  { DBPath := "a.db", JobLabel := "j", InputGlobs := ["g"],
    SyslogAddr := "s", DeleteAfterSend := false }

def c10OutCfg : RunnerConfig :=
  { DBPath := "a.db", JobLabel := "j", InputGlobs := ["g"],
    SyslogAddr := "s", ServiceLabel := "alerts", HashHexLen := 24,
    DeleteAfterSend := true }

def c7Env : Env :=
  { clock := fun n => if n ≤ 1 then 0 else 1000 }

def c7M : M :=
  { cfg := { DeadmanToken := "dm", Timeout := 5 } }

/-- The per-path condition under which ingestion leaves everything alone:
the path is gone, the file is empty, or its (path, whole-file digest) pair
is already in the file ledger. -/
def ingestSkips (m : M) (q : String) : Prop :=
  match fsFind m q with
  | none => True
  | some f => (utf8Bytes f.content).length ≤ 0 ∨
      isAlreadyProcessed (getDB m) q (sha256Hex f.content) = true

instance ingestSkipsDec (m : M) (q : String) : Decidable (ingestSkips m q) :=
  match h : fsFind m q with
  | none => isTrue (by simp [ingestSkips, h])
  | some f =>
    if hc : (utf8Bytes f.content).length ≤ 0 ∨
        isAlreadyProcessed (getDB m) q (sha256Hex f.content) = true then
      isTrue (by simpa [ingestSkips, h] using hc)
    else
      isFalse (by simpa [ingestSkips, h] using hc)

def c2Cfg : RunnerConfig :=
  { DBFolder := "/data", DBPrefix := "spooler_", JobLabel := "j",
    Inputs := [{ Glob := "g", AlertType := "general" }],
    SyslogAddr := "s", ServiceLabel := "alerts", HashHexLen := 24,
    DeleteAfterSend := true }

def c2Env : Env :=
  { ym := fun _ => 202602,
    glob := fun g => if g = "g" then ["/in/a.warn"] else [] }

def c2DB : DBState :=
  { files := [{ id := 1, path := "/in/a.warn",
                sha256 := "238b424f2d10c9c4a49308dc90ad7ea5fcf3df71b142cc3fc90ab1cd3121596c",
                allSent := true, deleted := true }],
    events := [{ id := 1, sourcePath := "/in/a.warn",
                 fileSHA256 := "238b424f2d10c9c4a49308dc90ad7ea5fcf3df71b142cc3fc90ab1cd3121596c",
                 sentSyslog := true }],
    nextFileId := 2, nextEventId := 2 }

def c2M : M :=
  { cfg := c2Cfg, stores := [(202602, c2DB)], curKey := some 202602,
    fs := [{ path := "/in/a.warn", content := "FILE1" }] }

/-- The structured data a replayed event is sent with (the shared map plus
the added `replay="true"` pair), as built in `replayFrom`. -/
def replaySD (cfg : RunnerConfig) (ev : SpoolEvent) : String :=
  buildStructuredData "cndp"
    (sdMapForEvent cfg (filepathBase ev.sourcePath) ev [("replay", "true")])

/-- The payload a replayed event is sent with. -/
def replayMsg (env : Env) (ev : SpoolEvent) : String :=
  env.marshalPayload ev.sourcePath ev.eventIndex ev.eventJSON ev.flatJSON

def c3Ev1 : SpoolEvent :=
  { id := 1, sourcePath := "/in/a.warn", alertType := "general",
    alertLevel := "warning", cccc := "none", contentHash := "h1",
    sentSyslog := true, archivedAt := 100 }

def c3Ev2 : SpoolEvent :=
  { id := 2, sourcePath := "/in/b.warn", alertType := "general",
    alertLevel := "critical", cccc := "ZBBB", contentHash := "h2",
    sentSyslog := true, archivedAt := 10 }

def c3M : M :=
  { cfg := { c2Cfg with ReplayFrom := some 50 },
    stores := [(202602, { events := [c3Ev1, c3Ev2], nextEventId := 3 })],
    curKey := some 202602 }

/-- Socket for the C1 counterexample: the first send of the process (the
fresh delivery) fails, every later send (the same-cycle resend) succeeds. -/
def c1Env : Env :=
  { ym := fun _ => 202602,
    glob := fun g => if g = "g" then ["/in/a.warn"] else [],
    sendOK := fun i => i != 0,
    decode := fun _ => some (JVal.jnum 7) }

/-- Start state for C1: the same single-input configuration as C2, an empty
monthly store, and the input file present on disk. -/
def c1M : M :=
  { cfg := c2Cfg, stores := [(202602, {})], curKey := some 202602,
    fs := [{ path := "/in/a.warn", content := "FILE1" }] }

/-- All-failing socket for the C1 amended witness (first cycle). -/
def c1FailEnv : Env :=
  { c1Env with sendOK := fun _ => false }

/-- All-succeeding socket for the C1 amended witness (second cycle). -/
def c1OkEnv : Env :=
  { c1Env with sendOK := fun _ => true }

/-! ### Lemma layer -/

theorem foldl_preserve {α β : Type} (P : β → Prop) (f : β → α → β) :
    ∀ (l : List α) (b : β), P b → (∀ (b' : β) (a : α), a ∈ l → P b' → P (f b' a)) →
    P (l.foldl f b) := by
  intro l
  induction l with
  | nil => intro b hb _; simpa using hb
  | cons a rest ih =>
    intro b hb hstep
    simp only [List.foldl_cons]
    exact ih (f b a) (hstep b a (by simp) hb)
      (fun b' x hx => hstep b' x (by simp [hx]))

theorem mapSet_length_le {α : Type} (out : List (String × α)) (k : String) (v : α) :
    (mapSet out k v).length ≤ out.length + 1 := by
  induction out with
  | nil => simp [mapSet]
  | cons hd tl ih =>
    simp only [mapSet]
    split
    · simp
    · simpa using Nat.succ_le_succ ih

theorem flattenInto_length (opts : FlattenOptions) :
    ∀ (fuel : Nat) (out : List (String × JVal)) (pfx : String) (v : JVal) (depth : Int),
      (out.length : Int) ≤ opts.MaxKeys →
      ((flattenInto opts fuel out pfx v depth).length : Int) ≤ opts.MaxKeys := by
  intro fuel
  induction fuel with
  | zero => intro out pfx v depth h; simpa [flattenInto] using h
  | succ f ih =>
    intro out pfx v depth h
    simp only [flattenInto]
    split
    · exact h
    · rename_i hfull
      have hlt : (out.length : Int) < opts.MaxKeys := lt_of_not_ge hfull
      split
      · split
        · have hm : ((mapSet out pfx (JVal.jstr ("<max_depth:" ++ toString opts.MaxDepth ++ ">"))).length : Int) ≤ (out.length : Int) + 1 := by
            exact_mod_cast mapSet_length_le out pfx _
          omega
        · exact h
      · split
        · rename_i fields
          exact foldl_preserve (fun o => (o.length : Int) ≤ opts.MaxKeys) _ fields out h
            (fun o kv _ ho => ih o _ kv.2 _ ho)
        · rename_i xs
          exact foldl_preserve (fun o => (o.length : Int) ≤ opts.MaxKeys) _ xs.enum out h
            (fun o ci _ ho => ih o _ ci.2 _ ho)
        · split
          · have hm : ((mapSet out "value" v).length : Int) ≤ (out.length : Int) + 1 := by
              exact_mod_cast mapSet_length_le out "value" v
            omega
          · have hm : ((mapSet out pfx v).length : Int) ≤ (out.length : Int) + 1 := by
              exact_mod_cast mapSet_length_le out pfx v
            omega

theorem extractCCCC_go_eq (upper : String) :
    ∀ codes : List String,
      ExtractCCCC.go upper codes =
        match ((codes.map (fun c => goToUpper (goTrimSpace c))).filter
                (fun c => c != "")).find? (fun c => goContains upper c) with
        | some c => c
        | none => "none" := by
  intro codes
  induction codes with
  | nil => simp [ExtractCCCC.go]
  | cons c0 rest ih =>
    simp only [ExtractCCCC.go, List.map_cons, List.filter_cons]
    by_cases hblank : goToUpper (goTrimSpace c0) = ""
    · simpa [hblank] using ih
    · have hne : (goToUpper (goTrimSpace c0) != "") = true := by
        simpa using hblank
      simp only [hblank, if_false, hne, if_true, List.find?]
      by_cases hc : goContains upper (goToUpper (goTrimSpace c0)) = true
      · simp [hc]
      · have hc' : goContains upper (goToUpper (goTrimSpace c0)) = false := by
          simpa using hc
        simpa [hc'] using ih

theorem getLast?_append_singleton {α : Type} (l : List α) (a : α) :
    (l ++ [a]).getLast? = some a :=
  List.getLast?_concat l

/-! Structured-data encoder lemmas (for C6 and the replay-tag argument). -/

theorem sdFold_acc (kv : List (String × String)) :
    ∀ (ks : List String) (s0 : List String) (a0 : String),
      (ks.foldl (sdStep kv) (s0, a0)).2 =
        a0 ++ sjoin (ks.filterMap (fun k =>
          match mapGet kv k with
          | none => none
          | some v => if goTrimSpace v = "" then none else some (sdItem k v))) := by
  intro ks
  induction ks with
  | nil => intro s0 a0; simp [sjoin]
  | cons k rest ih =>
    intro s0 a0
    simp only [List.foldl_cons, List.filterMap_cons]
    match hk : mapGet kv k with
    | none => simp [sdStep, hk, ih]
    | some v =>
      by_cases hb : goTrimSpace v = ""
      · simp [sdStep, hk, hb, ih]
      · simp [sdStep, hk, hb, ih, sjoin, String.append_assoc]

theorem sdFold_seen (kv : List (String × String)) :
    ∀ (ks : List String) (s0 : List String) (a0 : String) (x : String),
      x ∈ (ks.foldl (sdStep kv) (s0, a0)).1 ↔
        x ∈ s0 ∨ (x ∈ ks ∧ ∃ v, mapGet kv x = some v ∧ goTrimSpace v ≠ "") := by
  intro ks
  induction ks with
  | nil => intro s0 a0 x; simp
  | cons k rest ih =>
    intro s0 a0 x
    simp only [List.foldl_cons]
    match hk : mapGet kv k with
    | none =>
      rw [show sdStep kv (s0, a0) k = (s0, a0) by simp [sdStep, hk], ih]
      constructor
      · rintro (h | ⟨h1, h2⟩)
        · exact Or.inl h
        · exact Or.inr ⟨List.mem_cons_of_mem _ h1, h2⟩
      · rintro (h | ⟨h1, v, hv, hb⟩)
        · exact Or.inl h
        · rcases List.mem_cons.mp h1 with rfl | h1
          · rw [hk] at hv; cases hv
          · exact Or.inr ⟨h1, v, hv, hb⟩
    | some v =>
      by_cases hb : goTrimSpace v = ""
      · rw [show sdStep kv (s0, a0) k = (s0, a0) by simp [sdStep, hk, hb], ih]
        constructor
        · rintro (h | ⟨h1, h2⟩)
          · exact Or.inl h
          · exact Or.inr ⟨List.mem_cons_of_mem _ h1, h2⟩
        · rintro (h | ⟨h1, w, hw, hwb⟩)
          · exact Or.inl h
          · rcases List.mem_cons.mp h1 with rfl | h1
            · rw [hk] at hw; injection hw with hw; subst hw; exact absurd hb hwb
            · exact Or.inr ⟨h1, w, hw, hwb⟩
      · rw [show sdStep kv (s0, a0) k = (k :: s0, a0 ++ sdItem k v) by simp [sdStep, hk, hb],
           ih]
        constructor
        · rintro (h | ⟨h1, h2⟩)
          · rcases List.mem_cons.mp h with rfl | h
            · exact Or.inr ⟨List.mem_cons_self _ _, v, hk, hb⟩
            · exact Or.inl h
          · exact Or.inr ⟨List.mem_cons_of_mem _ h1, h2⟩
        · rintro (h | ⟨h1, w, hw, hwb⟩)
          · exact Or.inl (List.mem_cons_of_mem _ h)
          · rcases List.mem_cons.mp h1 with rfl | h1
            · exact Or.inl (List.mem_cons_self _ _)
            · exact Or.inr ⟨h1, w, hw, hwb⟩

theorem mapGetD_nonblank {kv : List (String × String)} {k : String}
    (h : goTrimSpace (mapGetD kv k "") ≠ "") :
    mapGet kv k = some (mapGetD kv k "") := by
  match hk : mapGet kv k with
  | none =>
    exfalso
    apply h
    have hd : mapGetD kv k "" = "" := by simp [mapGetD, hk]
    rw [hd]
    decide
  | some v => simp [mapGetD, hk]

theorem extrasFold_acc (kv : List (String × String)) :
    ∀ (l : List String) (a0 : String),
      l.foldl (fun acc k => acc ++ sdItem k (mapGetD kv k "")) a0 =
        a0 ++ sjoin (l.map (fun k => sdItem k (mapGetD kv k ""))) := by
  intro l
  induction l with
  | nil => intro a0; simp [sjoin]
  | cons k rest ih => intro a0; simp [ih, sjoin, String.append_assoc]

/-- The code's structured-data builder agrees with the spec-shaped
renderer using the code's preferred list (tenth key `cccc`), for every id
and key/value map. -/
theorem buildSD_eq_spec (sdID : String) (kv : List (String × String)) :
    buildStructuredData sdID kv = specStructuredData preferredOrder sdID kv := by
  simp only [buildStructuredData, specStructuredData]
  rw [extrasFold_acc, sdFold_acc]
  have hfilter : (mapKeys kv).filter
      (fun k => !((preferredOrder.foldl (sdStep kv) ([], "[" ++ (if sdID = "" then "cndp" else sdID))).1).contains k &&
                goTrimSpace (mapGetD kv k "") != "") =
      (mapKeys kv).filter
        (fun k => !preferredOrder.contains k && goTrimSpace (mapGetD kv k "") != "") := by
    apply List.filter_congr
    intro k _
    by_cases hb : goTrimSpace (mapGetD kv k "") = ""
    · simp [hb]
    · have hget := mapGetD_nonblank hb
      have hiff : k ∈ (preferredOrder.foldl (sdStep kv) ([], "[" ++ (if sdID = "" then "cndp" else sdID))).1 ↔
          k ∈ preferredOrder := by
        rw [sdFold_seen]
        constructor
        · rintro (h | ⟨h1, _⟩)
          · simp at h
          · exact h1
        · intro h1
          exact Or.inr ⟨h1, mapGetD kv k "", hget, hb⟩
      simp only [List.contains, List.elem_eq_mem]
      rw [decide_eq_decide.mpr hiff]
  rw [hfilter]

/-! Configuration-preservation catalog: no phase of the cycle changes the
Runner configuration except `ensureDBForNow`, which can only default the
store prefix — in particular the deadman token survives the whole cycle. -/

theorem setDB_cfg (m : M) (db : DBState) : (setDB m db).cfg = m.cfg := by
  cases h : m.curKey <;> simp [setDB, h]

theorem rnow_cfg (env : Env) (m : M) : ((rnow env m).2).cfg = m.cfg := rfl

theorem doSend_cfg (env : Env) (k : SendKind) (a s msg : String) (t : Int) (m : M) :
    ((doSend env k a s msg t m).2).cfg = m.cfg := rfl

theorem remainingTimeoutM_cfg (env : Env) (dl : Option Int) (f : Int) (m : M) :
    ((remainingTimeoutM env dl f m).2).cfg = m.cfg := by
  cases dl <;> rfl

theorem isDeadlineExceededM_cfg (env : Env) (dl : Option Int) (m : M) :
    ((isDeadlineExceededM env dl m).2).cfg = m.cfg := by
  cases dl <;> rfl

theorem noteLagOfJSON_cfg (env : Env) (s : String) (m : M) :
    (noteLagOfJSON env s m).cfg = m.cfg := rfl

theorem MoveFileToDir_cfg (env : Env) (s d : String) (m : M) :
    ((MoveFileToDir env s d m).2).cfg = m.cfg := by
  unfold MoveFileToDir
  dsimp only
  repeat' split
  all_goals rfl

theorem tryDeleteProcessedFile_cfg (env : Env) (p s : String) (m : M) :
    ((tryDeleteProcessedFile env p s m).1).cfg = m.cfg := by
  unfold tryDeleteProcessedFile
  dsimp only
  split <;> simp [setDB_cfg, fsRemove, rnow]

theorem archiveSendOne_cfg (env : Env) (path : String) (dl : Option Int)
    (ev : SpoolEvent) (m : M) : ((archiveSendOne env path dl ev m).2.2).cfg = m.cfg := by
  unfold archiveSendOne
  dsimp only
  split <;> simp [remainingTimeoutM_cfg, noteLagOfJSON_cfg, doSend_cfg, rnow_cfg]

theorem archiveSendLoop_cfg (env : Env) (path : String) (dl : Option Int) :
    ∀ (evs : List SpoolEvent) (m : M),
      ((archiveSendLoop env path dl evs m).2.2).cfg = m.cfg := by
  intro evs
  induction evs with
  | nil => intro m; rfl
  | cons ev rest ih =>
    intro m
    simp only [archiveSendLoop]
    rw [ih, archiveSendOne_cfg]

theorem archiveMark_cfg (env : Env) (path sha : String) (info : FSFile)
    (evs : List SpoolEvent) (als : Bool) (ed : String) (mv : Bool) (m : M) :
    ((archiveMark env path sha info evs als ed mv m).1).cfg = m.cfg := by
  unfold archiveMark
  dsimp only
  repeat' split
  all_goals
    simp [setDB_cfg, MoveFileToDir_cfg, rnow_cfg, tryDeleteProcessedFile_cfg]

theorem archiveAndMarkFile_cfg (env : Env) (path sha : String) (info : FSFile)
    (evs : List SpoolEvent) (dl : Option Int) (ed : String) (mv : Bool) (m : M) :
    ((archiveAndMarkFile env path sha info evs dl ed mv m).1).cfg = m.cfg := by
  unfold archiveAndMarkFile
  exact (archiveMark_cfg env path sha info _ _ ed mv _).trans
    (archiveSendLoop_cfg env path dl evs m)

theorem ingestFile_cfg (env : Env) (p at_ ed : String) (dl : Option Int) (m : M) :
    ((ingestFile env p at_ ed dl m).1).cfg = m.cfg := by
  unfold ingestFile
  dsimp only
  repeat' split
  all_goals simp [archiveAndMarkFile_cfg, rnow_cfg]

theorem ingestPathsLoop_cfg (env : Env) (dl : Option Int) :
    ∀ (l : List String) (m : M), ((ingestPathsLoop env dl l m).1).cfg = m.cfg := by
  intro l
  induction l with
  | nil => intro m; rfl
  | cons p rest ih =>
    intro m
    simp only [ingestPathsLoop]
    split
    · simp [isDeadlineExceededM_cfg]
    · rw [ih, ingestFile_cfg, isDeadlineExceededM_cfg]

theorem ingestItemsLoop_cfg (env : Env) (dl : Option Int) :
    ∀ (l : List InputItem) (m : M), ((ingestItemsLoop env dl l m).1).cfg = m.cfg := by
  intro l
  induction l with
  | nil => intro m; rfl
  | cons it rest ih =>
    intro m
    simp only [ingestItemsLoop]
    split
    · simp [isDeadlineExceededM_cfg]
    · rw [ih, ingestFile_cfg, isDeadlineExceededM_cfg]

theorem resendOne_cfg (env : Env) (dl : Option Int) (ev : SpoolEvent) (m : M) :
    (resendOne env dl ev m).cfg = m.cfg := by
  unfold resendOne
  dsimp only
  split <;>
    simp [setDB_cfg, remainingTimeoutM_cfg, noteLagOfJSON_cfg, doSend_cfg, rnow_cfg]

theorem resendLoop_cfg (env : Env) (dl : Option Int) :
    ∀ (l : List SpoolEvent) (m : M), ((resendLoop env dl l m).1).cfg = m.cfg := by
  intro l
  induction l with
  | nil => intro m; rfl
  | cons ev rest ih =>
    intro m
    simp only [resendLoop]
    split
    · simp [isDeadlineExceededM_cfg]
    · rw [ih, resendOne_cfg, isDeadlineExceededM_cfg]

theorem resendPending_cfg (env : Env) (dl : Option Int) (m : M) :
    ((resendPending env dl m).1).cfg = m.cfg :=
  resendLoop_cfg env dl _ m

theorem finalizeOne_cfg (env : Env) (pf : ProcessedFile) (m : M) :
    (finalizeOne env pf m).cfg = m.cfg := by
  unfold finalizeOne
  dsimp only
  repeat' split
  all_goals simp [setDB_cfg, tryDeleteProcessedFile_cfg, rnow_cfg]

theorem finalizeLoop_cfg (env : Env) :
    ∀ (l : List ProcessedFile) (m : M), (finalizeLoop env l m).cfg = m.cfg := by
  intro l
  induction l with
  | nil => intro m; rfl
  | cons pf rest ih =>
    intro m
    simp only [finalizeLoop]
    rw [ih, finalizeOne_cfg]

theorem finalizeFiles_cfg (env : Env) (m : M) :
    ((finalizeFiles env m).1).cfg = m.cfg :=
  finalizeLoop_cfg env _ m

theorem replayOne_cfg (env : Env) (dl : Option Int) (ev : SpoolEvent) (m : M) :
    (replayOne env dl ev m).cfg = m.cfg := by
  unfold replayOne
  dsimp only
  split <;> simp [remainingTimeoutM_cfg, noteLagOfJSON_cfg, doSend_cfg]

theorem replayEventLoop_cfg (env : Env) (dl : Option Int) :
    ∀ (l : List SpoolEvent) (m : M), ((replayEventLoop env dl l m).1).cfg = m.cfg := by
  intro l
  induction l with
  | nil => intro m; rfl
  | cons ev rest ih =>
    intro m
    simp only [replayEventLoop]
    split
    · simp [isDeadlineExceededM_cfg]
    · rw [ih, replayOne_cfg, isDeadlineExceededM_cfg]

theorem replayStoreLoop_cfg (env : Env) (dl : Option Int) (fromT : Int) :
    ∀ (l : List (Int × DBState)) (m : M),
      ((replayStoreLoop env dl fromT l m).1).cfg = m.cfg := by
  intro l
  induction l with
  | nil => intro m; rfl
  | cons s rest ih =>
    intro m
    simp only [replayStoreLoop]
    split
    · simp [isDeadlineExceededM_cfg]
    · split
      · simp [replayEventLoop_cfg, isDeadlineExceededM_cfg]
      · rw [ih, replayEventLoop_cfg, isDeadlineExceededM_cfg]

theorem replayFrom_cfg (env : Env) (fromT : Int) (dl : Option Int) (m : M) :
    ((replayFrom env fromT dl m).1).cfg = m.cfg := by
  unfold replayFrom
  dsimp only
  repeat' split
  all_goals simp [replayStoreLoop_cfg, rnow_cfg]

theorem ensureDBForNow_cfgTok (env : Env) (m : M) :
    ((ensureDBForNow env m).1).cfg.DeadmanToken = m.cfg.DeadmanToken := by
  unfold ensureDBForNow
  dsimp only
  repeat' split
  all_goals rfl

theorem runOnceMain_cfgTok (env : Env) (dl : Option Int) (m : M) :
    ((runOnceMain env dl m).1).cfg.DeadmanToken = m.cfg.DeadmanToken := by
  unfold runOnceMain
  dsimp only
  repeat' split
  all_goals
    simp [ensureDBForNow_cfgTok, replayFrom_cfg, ingestPathsLoop_cfg,
      ingestItemsLoop_cfg, resendPending_cfg, finalizeFiles_cfg,
      isDeadlineExceededM_cfg]

theorem sendDeadman_last (env : Env) (dl : Option Int) (s e : Int)
    (err : Option String) (m : M) :
    (((sendDeadman env dl s e err m).1).sends.getLast?).map (fun r => r.kind) =
      some SendKind.deadman := by
  unfold sendDeadman
  dsimp only
  cases dl <;> simp [doSend, remainingTimeoutM, getLast?_append_singleton]

/-! Idempotent-cycle lemmas (C2). -/

theorem ingestFile_already (env : Env) (p at_ ed : String) (dl : Option Int)
    (m : M) (f : FSFile) (hf : fsFind m p = some f)
    (ha : isAlreadyProcessed (getDB m) p (sha256Hex f.content) = true) :
    ingestFile env p at_ ed dl m = (m, none) := by
  unfold ingestFile
  rw [hf]
  dsimp only
  split
  · rfl
  · simp [ha]

theorem ingestFile_noop (env : Env) (p at_ ed : String) (dl : Option Int)
    (m : M) (h : ingestSkips m p) : (ingestFile env p at_ ed dl m).1 = m := by
  unfold ingestSkips at h
  unfold ingestFile
  match hf : fsFind m p with
  | none => rfl
  | some f =>
    rw [hf] at h
    dsimp only
    split
    · rfl
    · rename_i hsz
      cases h with
      | inl h1 => exact absurd h1 hsz
      | inr h2 => simp [h2]

theorem ingestPathsLoop_noop (env : Env) :
    ∀ (l : List String) (m : M), (∀ q ∈ l, ingestSkips m q) →
      ingestPathsLoop env none l m = (m, none) := by
  intro l
  induction l with
  | nil => intro m _; rfl
  | cons p rest ih =>
    intro m h
    simp only [ingestPathsLoop, isDeadlineExceededM]
    rw [ingestFile_noop env p "" "" none m (h p (by simp))]
    exact ih m (fun q hq => h q (by simp [hq]))

theorem ingestItemsLoop_noop (env : Env) :
    ∀ (l : List InputItem) (m : M), (∀ it ∈ l, ingestSkips m it.Path) →
      ingestItemsLoop env none l m = (m, none) := by
  intro l
  induction l with
  | nil => intro m _; rfl
  | cons it rest ih =>
    intro m h
    simp only [ingestItemsLoop, isDeadlineExceededM]
    rw [ingestFile_noop env it.Path it.AlertType it.ErrorDir none m (h it (by simp))]
    exact ih m (fun q hq => h q (by simp [hq]))

theorem resendPending_nopending (env : Env) (dl : Option Int) (m : M)
    (h : ∀ ev ∈ (getDB m).events, ev.sentSyslog = true) :
    resendPending env dl m = (m, none) := by
  unfold resendPending
  have hnil : (getDB m).events.filter (fun ev => ev.sentSyslog == false) = [] := by
    rw [List.filter_eq_nil_iff]
    intro ev hev
    simp [h ev hev]
  rw [hnil]
  rfl

theorem finalizeFiles_done (env : Env) (m : M)
    (h : ∀ pf ∈ (getDB m).files, pf.allSent = true ∧ pf.deleted = true) :
    finalizeFiles env m = (m, none) := by
  unfold finalizeFiles
  have hnil : (getDB m).files.filter
      (fun pf => pf.allSent == false || pf.deleted == false) = [] := by
    rw [List.filter_eq_nil_iff]
    intro pf hpf
    simp [(h pf hpf).1, (h pf hpf).2]
  rw [hnil]
  rfl

theorem ensureDB_noop (env : Env) (m : M) (K : Int)
    (hfolder : goTrimSpace m.cfg.DBFolder ≠ "")
    (hkey : m.curKey = some K)
    (hym : env.ym (env.clock m.tick) = K) :
    ensureDBForNow env m = ({ m with tick := m.tick + 1 }, none) := by
  unfold ensureDBForNow
  rw [if_neg hfolder]
  dsimp only [rnow]
  rw [show env.ym (env.clock m.tick) = K from hym, hkey]
  simp

theorem getDB_congr (m1 m2 : M) (h1 : m1.curKey = m2.curKey)
    (h2 : m1.stores = m2.stores) : getDB m1 = getDB m2 := by
  unfold getDB
  rw [h1, h2]

theorem sendDeadman_shape (env : Env) (dl : Option Int) (s e : Int)
    (err : Option String) (m : M) :
    ∃ r : SendRec,
      ((sendDeadman env dl s e err m).1).sends = m.sends ++ [r] ∧
      r.kind = SendKind.deadman ∧
      ((sendDeadman env dl s e err m).1).stores = m.stores ∧
      ((sendDeadman env dl s e err m).1).curKey = m.curKey ∧
      ((sendDeadman env dl s e err m).1).fs = m.fs := by
  cases dl <;> exact ⟨_, rfl, rfl, rfl, rfl, rfl⟩

/-! Replay lemmas (C3): the replay pass never writes to the stores or to
the filesystem, every send it makes is the replay rendering of some
archived event, every matching event is sent, and the rendered structured
data carries the `replay="true"` item verbatim. -/

theorem string_data_append (a b : String) : (a ++ b).data = a.data ++ b.data := rfl

theorem startsList_append_self : ∀ (n B : List Char), startsList n (n ++ B) = true := by
  intro n
  induction n with
  | nil => intro B; rfl
  | cons c rest ih => intro B; simp [startsList, ih]

theorem containsList_nilNeedle : ∀ X : List Char, containsList X [] = true := by
  intro X
  cases X <;> simp [containsList, startsList]

theorem containsList_here : ∀ (n B : List Char), containsList (n ++ B) n = true := by
  intro n B
  cases n with
  | nil => exact containsList_nilNeedle B
  | cons c rest =>
    have h := startsList_append_self (c :: rest) B
    rw [List.cons_append] at h
    simp [containsList, h]

theorem containsList_of_append : ∀ (A n B : List Char),
    containsList (A ++ (n ++ B)) n = true := by
  intro A
  induction A with
  | nil => intro n B; simpa using containsList_here n B
  | cons a rest ih =>
    intro n B
    cases n with
    | nil => exact containsList_nilNeedle _
    | cons c ns =>
      have h := ih (c :: ns) B
      simp only [List.cons_append] at h
      simp [containsList, h]

theorem sjoin_data_split : ∀ (l : List String) (x : String), x ∈ l →
    ∃ p s : List Char, (sjoin l).data = p ++ (x.data ++ s) := by
  intro l
  induction l with
  | nil => intro x hx; cases hx
  | cons a rest ih =>
    intro x hx
    rcases List.mem_cons.mp hx with rfl | hx
    · exact ⟨[], (sjoin rest).data, by simp [sjoin, string_data_append]⟩
    · obtain ⟨p, s, hps⟩ := ih x hx
      exact ⟨a.data ++ p, s, by simp [sjoin, string_data_append, hps]⟩

theorem goContains_of_decomp (s x : String) (p q : List Char)
    (h : s.data = p ++ (x.data ++ q)) : goContains s x = true := by
  unfold goContains
  rw [h]
  exact containsList_of_append p x.data q

theorem specSD_contains (pref : List String) (sdID : String)
    (kv : List (String × String)) (k v : String) (hk : k ∈ pref)
    (hv : mapGet kv k = some v) (hnb : goTrimSpace v ≠ "") :
    goContains (specStructuredData pref sdID kv) (sdItem k v) = true := by
  have hmem : sdItem k v ∈ pref.filterMap (fun k =>
      match mapGet kv k with
      | none => none
      | some v => if goTrimSpace v = "" then none else some (sdItem k v)) := by
    refine List.mem_filterMap.mpr ⟨k, hk, ?_⟩
    rw [hv]
    simp [hnb]
  obtain ⟨p, s, hps⟩ := sjoin_data_split _ (sdItem k v) hmem
  refine goContains_of_decomp _ _
    ("[".data ++ (if sdID = "" then "cndp" else sdID).data ++ p)
    (s ++ (sjoin ((sortStrings ((mapKeys kv).filter
      (fun k => !pref.contains k && goTrimSpace (mapGetD kv k "") != ""))).map
      (fun k => sdItem k (mapGetD kv k "")))).data ++ "]".data) ?_
  simp only [specStructuredData, string_data_append, hps, List.append_assoc]

theorem sdMap_replay_get (cfg : RunnerConfig) (fn : String) (ev : SpoolEvent) :
    mapGet (sdMapForEvent cfg fn ev [("replay", "true")]) "replay" = some "true" := by
  simp [sdMapForEvent, mapGet]

theorem replaySD_has_tag (cfg : RunnerConfig) (ev : SpoolEvent) :
    goContains (replaySD cfg ev) " replay=\"true\"" = true := by
  have hit : sdItem "replay" "true" = " replay=\"true\"" := by decide
  have h := specSD_contains preferredOrder "cndp"
    (sdMapForEvent cfg (filepathBase ev.sourcePath) ev [("replay", "true")])
    "replay" "true" (by simp [preferredOrder]) (sdMap_replay_get cfg _ ev)
    (by decide)
  unfold replaySD
  rw [buildSD_eq_spec, ← hit]
  exact h

theorem replayOne_fields (env : Env) (dl : Option Int) (ev : SpoolEvent) (m : M) :
    (replayOne env dl ev m).stores = m.stores ∧
    (replayOne env dl ev m).fs = m.fs ∧
    (replayOne env dl ev m).curKey = m.curKey ∧
    (replayOne env dl ev m).cfg = m.cfg ∧
    ∃ t ok, (replayOne env dl ev m).sends =
      m.sends ++ [{ appName := "alert-spooler", sd := replaySD m.cfg ev,
                    msg := replayMsg env ev, timeout := t, ok := ok,
                    kind := SendKind.replay }] := by
  unfold replayOne noteLagOfJSON remainingTimeoutM doSend rnow
  cases dl <;> dsimp only <;> split <;>
    exact ⟨rfl, rfl, rfl, rfl, _, _, rfl⟩

theorem replayEventLoop_none (env : Env) : ∀ (evs : List SpoolEvent) (m : M),
    (replayEventLoop env none evs m).2 = none ∧
    (replayEventLoop env none evs m).1.stores = m.stores ∧
    (replayEventLoop env none evs m).1.fs = m.fs ∧
    (replayEventLoop env none evs m).1.curKey = m.curKey ∧
    (replayEventLoop env none evs m).1.cfg = m.cfg ∧
    ∃ l, (replayEventLoop env none evs m).1.sends = m.sends ++ l ∧
      (∀ s ∈ l, s.kind = SendKind.replay ∧
        ∃ ev ∈ evs, s.sd = replaySD m.cfg ev ∧ s.msg = replayMsg env ev) ∧
      (∀ ev ∈ evs, ∃ s ∈ l, s.kind = SendKind.replay ∧
        s.sd = replaySD m.cfg ev ∧ s.msg = replayMsg env ev) := by
  intro evs
  induction evs with
  | nil =>
    intro m
    refine ⟨rfl, rfl, rfl, rfl, rfl, [], (List.append_nil m.sends).symm, ?_, ?_⟩
    · intro s hs; cases hs
    · intro ev hev; cases hev
  | cons ev rest ih =>
    intro m
    have hred : replayEventLoop env none (ev :: rest) m =
        replayEventLoop env none rest (replayOne env none ev m) := rfl
    obtain ⟨hst1, hfs1, hck1, hcfg1, t, ok, hsd1⟩ := replayOne_fields env none ev m
    obtain ⟨e2, st2, fs2, ck2, cfg2, l2, hs2, hall2, hcov2⟩ :=
      ih (replayOne env none ev m)
    rw [hred]
    refine ⟨e2, by rw [st2, hst1], by rw [fs2, hfs1], by rw [ck2, hck1],
            by rw [cfg2, hcfg1],
            { appName := "alert-spooler", sd := replaySD m.cfg ev,
              msg := replayMsg env ev, timeout := t, ok := ok,
              kind := SendKind.replay } :: l2, ?_, ?_, ?_⟩
    · rw [hs2, hsd1]; simp
    · intro s hs
      rcases List.mem_cons.mp hs with rfl | hs
      · exact ⟨rfl, ev, List.mem_cons_self _ _, rfl, rfl⟩
      · obtain ⟨hk, ev', hev', hsd', hmsg'⟩ := hall2 s hs
        rw [hcfg1] at hsd'
        exact ⟨hk, ev', List.mem_cons_of_mem _ hev', hsd', hmsg'⟩
    · intro e he
      rcases List.mem_cons.mp he with rfl | he
      · exact ⟨{ appName := "alert-spooler", sd := replaySD m.cfg e,
                 msg := replayMsg env e, timeout := t, ok := ok,
                 kind := SendKind.replay }, List.mem_cons_self _ _, rfl, rfl, rfl⟩
      · obtain ⟨s, hs, hk, hsd', hmsg'⟩ := hcov2 e he
        rw [hcfg1] at hsd'
        exact ⟨s, List.mem_cons_of_mem _ hs, hk, hsd', hmsg'⟩

theorem replayStoreLoop_none (env : Env) (fromT : Int) :
    ∀ (dbs : List (Int × DBState)) (m : M),
    (replayStoreLoop env none fromT dbs m).2 = none ∧
    (replayStoreLoop env none fromT dbs m).1.stores = m.stores ∧
    (replayStoreLoop env none fromT dbs m).1.fs = m.fs ∧
    (replayStoreLoop env none fromT dbs m).1.curKey = m.curKey ∧
    (replayStoreLoop env none fromT dbs m).1.cfg = m.cfg ∧
    ∃ l, (replayStoreLoop env none fromT dbs m).1.sends = m.sends ++ l ∧
      (∀ s ∈ l, s.kind = SendKind.replay ∧
        ∃ p ∈ dbs, ∃ ev ∈ p.2.events, fromT ≤ ev.archivedAt ∧
          s.sd = replaySD m.cfg ev ∧ s.msg = replayMsg env ev) ∧
      (∀ p ∈ dbs, ∀ ev ∈ p.2.events, fromT ≤ ev.archivedAt →
        ∃ s ∈ l, s.kind = SendKind.replay ∧ s.sd = replaySD m.cfg ev ∧
          s.msg = replayMsg env ev) := by
  intro dbs
  induction dbs with
  | nil =>
    intro m
    refine ⟨rfl, rfl, rfl, rfl, rfl, [], (List.append_nil m.sends).symm, ?_, ?_⟩
    · intro s hs; cases hs
    · intro p hp; cases hp
  | cons q rest ih =>
    obtain ⟨k, db⟩ := q
    intro m
    obtain ⟨e1, st1, fs1, ck1, cfg1, l1, hs1, hall1, hcov1⟩ :=
      replayEventLoop_none env (db.events.filter (fun ev => fromT ≤ ev.archivedAt)) m
    have hred : replayStoreLoop env none fromT ((k, db) :: rest) m =
        replayStoreLoop env none fromT rest
          (replayEventLoop env none
            (db.events.filter (fun ev => fromT ≤ ev.archivedAt)) m).1 := by
      conv_lhs => rw [replayStoreLoop]
      dsimp only [isDeadlineExceededM]
      simp only [Bool.false_eq_true, if_false]
      rw [e1]
    obtain ⟨e2, st2, fs2, ck2, cfg2, l2, hs2, hall2, hcov2⟩ :=
      ih (replayEventLoop env none
        (db.events.filter (fun ev => fromT ≤ ev.archivedAt)) m).1
    rw [hred]
    refine ⟨e2, by rw [st2, st1], by rw [fs2, fs1], by rw [ck2, ck1],
            by rw [cfg2, cfg1], l1 ++ l2, ?_, ?_, ?_⟩
    · rw [hs2, hs1, List.append_assoc]
    · intro s hs
      rcases List.mem_append.mp hs with hs | hs
      · obtain ⟨hk', ev, hev, hsd, hmsg⟩ := hall1 s hs
        rw [List.mem_filter] at hev
        exact ⟨hk', (k, db), List.mem_cons_self _ _, ev, hev.1,
               by simpa using hev.2, hsd, hmsg⟩
      · obtain ⟨hk', p, hp, ev, hev, ha, hsd, hmsg⟩ := hall2 s hs
        rw [cfg1] at hsd
        exact ⟨hk', p, List.mem_cons_of_mem _ hp, ev, hev, ha, hsd, hmsg⟩
    · intro p hp ev hev ha
      rcases List.mem_cons.mp hp with rfl | hp
      · obtain ⟨s, hs, hk', hsd, hmsg⟩ := hcov1 ev
          (by rw [List.mem_filter]; exact ⟨hev, by simpa using ha⟩)
        exact ⟨s, List.mem_append_left _ hs, hk', hsd, hmsg⟩
      · obtain ⟨s, hs, hk', hsd, hmsg⟩ := hcov2 p hp ev hev ha
        rw [cfg1] at hsd
        exact ⟨s, List.mem_append_right _ hs, hk', hsd, hmsg⟩

theorem mem_insertByKey (x y : Int × DBState) :
    ∀ l, y ∈ listMonthlyDBs.insertByKey x l ↔ y = x ∨ y ∈ l := by
  intro l
  induction l with
  | nil => simp [listMonthlyDBs.insertByKey]
  | cons z rest ih =>
    rw [listMonthlyDBs.insertByKey]
    split
    · simp [List.mem_cons]
    · simp only [List.mem_cons, ih]
      tauto

theorem mem_sortByKey (y : Int × DBState) :
    ∀ l, y ∈ listMonthlyDBs.sortByKey l ↔ y ∈ l := by
  intro l
  induction l with
  | nil => simp [listMonthlyDBs.sortByKey]
  | cons x rest ih =>
    rw [listMonthlyDBs.sortByKey, mem_insertByKey]
    simp [ih]

theorem mem_listMonthlyDBs (stores : List (Int × DBState)) (a b : Int)
    (x : Int × DBState) :
    x ∈ listMonthlyDBs stores a b ↔ x ∈ stores ∧ a ≤ x.1 ∧ x.1 ≤ b := by
  unfold listMonthlyDBs
  rw [mem_sortByKey, List.mem_filter]
  simp

theorem replayFrom_none_spec (env : Env) (fromT : Int) (m : M)
    (hf : goTrimSpace m.cfg.DBFolder ≠ "") (hp : goTrimSpace m.cfg.DBPrefix ≠ "") :
    replayFrom env fromT none m =
      replayStoreLoop env none fromT
        (listMonthlyDBs m.stores (env.ym fromT) (env.ym (env.clock m.tick)))
        { m with tick := m.tick + 1 } := by
  unfold replayFrom
  rw [if_neg hf, if_neg hp]
  rfl

/-! At-least-once lemmas (C1): a cycle whose sends all fail leaves the
source file on disk and its event rows unsent with a recorded error; a
later cycle whose sends all succeed marks every row sent with the error
cleared and deletes the source file. -/

theorem assocGet_assocSet_self {α : Type} : ∀ (l : List (Int × α)) (k : Int) (v : α),
    assocGet (assocSet l k v) k = some v := by
  intro l
  induction l with
  | nil => intro k v; simp [assocSet, assocGet]
  | cons x rest ih =>
    intro k v
    obtain ⟨a, b⟩ := x
    by_cases h : a = k
    · subst h; simp [assocSet, assocGet]
    · simp [assocSet, assocGet, h, ih]

theorem getDB_setDB (m : M) (db : DBState) (K : Int) (h : m.curKey = some K) :
    getDB (setDB m db) = db := by
  have h1 : setDB m db = { m with stores := assocSet m.stores K db } := by
    unfold setDB
    rw [h]
  rw [h1]
  unfold getDB
  dsimp only
  rw [h]
  dsimp only
  rw [assocGet_assocSet_self]
  rfl

theorem setDB_fs (m : M) (db : DBState) : (setDB m db).fs = m.fs := by
  cases h : m.curKey <;> simp [setDB, h]

theorem setDB_curKey (m : M) (db : DBState) : (setDB m db).curKey = m.curKey := by
  cases h : m.curKey <;> simp [setDB, h]

theorem archiveSendOne_fail (env : Env) (path : String) (dl : Option Int)
    (ev : SpoolEvent) (m : M) (hfail : ∀ i, env.sendOK i = false) :
    (archiveSendOne env path dl ev m).1 =
      { ev with sentSyslog := false,
                sendError := env.sendErrMsg m.sends.length } ∧
    (archiveSendOne env path dl ev m).2.1 = false ∧
    (archiveSendOne env path dl ev m).2.2.stores = m.stores ∧
    (archiveSendOne env path dl ev m).2.2.fs = m.fs ∧
    (archiveSendOne env path dl ev m).2.2.curKey = m.curKey ∧
    (archiveSendOne env path dl ev m).2.2.cfg = m.cfg := by
  unfold archiveSendOne noteLagOfJSON remainingTimeoutM doSend rnow
  cases dl <;> dsimp only <;> simp [hfail]

theorem archiveSendLoop_fail (env : Env) (path : String) (dl : Option Int)
    (hfail : ∀ i, env.sendOK i = false) : ∀ (evs : List SpoolEvent) (m : M),
    ((archiveSendLoop env path dl evs m).1 = [] ↔ evs = []) ∧
    (evs ≠ [] → (archiveSendLoop env path dl evs m).2.1 = false) ∧
    (∀ ev' ∈ (archiveSendLoop env path dl evs m).1,
       ev'.sentSyslog = false ∧ (∃ i, ev'.sendError = env.sendErrMsg i) ∧
       ∃ ev ∈ evs, ev'.sourcePath = ev.sourcePath ∧ ev'.fileSHA256 = ev.fileSHA256) ∧
    (archiveSendLoop env path dl evs m).2.2.stores = m.stores ∧
    (archiveSendLoop env path dl evs m).2.2.fs = m.fs ∧
    (archiveSendLoop env path dl evs m).2.2.curKey = m.curKey ∧
    (archiveSendLoop env path dl evs m).2.2.cfg = m.cfg := by
  intro evs
  induction evs with
  | nil =>
    intro m
    refine ⟨by simp [archiveSendLoop], by simp, ?_, rfl, rfl, rfl, rfl⟩
    intro ev' h
    simp [archiveSendLoop] at h
  | cons ev rest ih =>
    intro m
    obtain ⟨hev, hok, hst, hfs, hck, hcfg⟩ := archiveSendOne_fail env path dl ev m hfail
    obtain ⟨hnil, hallsent, hmem, st2, fs2, ck2, cfg2⟩ :=
      ih (archiveSendOne env path dl ev m).2.2
    have hred : archiveSendLoop env path dl (ev :: rest) m =
        ((archiveSendOne env path dl ev m).1 ::
           (archiveSendLoop env path dl rest (archiveSendOne env path dl ev m).2.2).1,
         (archiveSendOne env path dl ev m).2.1 &&
           (archiveSendLoop env path dl rest (archiveSendOne env path dl ev m).2.2).2.1,
         (archiveSendLoop env path dl rest (archiveSendOne env path dl ev m).2.2).2.2) := rfl
    rw [hred]
    refine ⟨by simp, fun _ => by rw [hok]; rfl, ?_, st2.trans hst, fs2.trans hfs,
            ck2.trans hck, cfg2.trans hcfg⟩
    intro ev' h
    rcases List.mem_cons.mp h with rfl | h
    · rw [hev]
      exact ⟨rfl, ⟨m.sends.length, rfl⟩, ev, List.mem_cons_self _ _, rfl, rfl⟩
    · obtain ⟨h1, h2, ev0, hev0, h3, h4⟩ := hmem ev' h
      exact ⟨h1, h2, ev0, List.mem_cons_of_mem _ hev0, h3, h4⟩

theorem enumFrom_snd_mem {α : Type} : ∀ (l : List α) (n : Nat) (p : Nat × α),
    p ∈ l.enumFrom n → p.2 ∈ l := by
  intro l
  induction l with
  | nil => intro n p h; cases h
  | cons a rest ih =>
    intro n p h
    rcases List.mem_cons.mp h with rfl | h
    · exact List.mem_cons_self _ _
    · exact List.mem_cons_of_mem _ (ih (n + 1) p h)

theorem dbArchiveTx_files (db : DBState) (evs : List SpoolEvent) (pf : ProcessedFile) :
    (dbArchiveTx db evs pf).files = db.files ++ [{ pf with id := db.nextFileId }] := rfl

theorem dbArchiveTx_events_mem (db : DBState) (evs : List SpoolEvent)
    (pf : ProcessedFile) : ∀ e ∈ (dbArchiveTx db evs pf).events,
    e ∈ db.events ∨ ∃ ev ∈ evs, ∃ n : Nat, e = { ev with id := n } := by
  intro e he
  unfold dbArchiveTx at he
  dsimp only at he
  rcases List.mem_append.mp he with h | h
  · exact Or.inl h
  · right
    obtain ⟨ie, hie, heq⟩ := List.mem_map.mp h
    exact ⟨ie.2, enumFrom_snd_mem evs 0 ie hie, db.nextEventId + ie.1, heq.symm⟩

theorem archiveMark_fail (env : Env) (path sha : String) (f : FSFile)
    (events : List SpoolEvent) (m : M) (K : Int) (hK : m.curKey = some K) :
    (archiveMark env path sha f events false "" false m).2 = none ∧
    (archiveMark env path sha f events false "" false m).1.fs = m.fs ∧
    (archiveMark env path sha f events false "" false m).1.curKey = m.curKey ∧
    (archiveMark env path sha f events false "" false m).1.cfg = m.cfg ∧
    ∃ pf1 : ProcessedFile,
      getDB (archiveMark env path sha f events false "" false m).1 =
        dbArchiveTx (getDB m) events pf1 ∧
      pf1.path = path ∧ pf1.sha256 = sha ∧ pf1.allSent = false ∧
      pf1.deleted = false := by
  unfold archiveMark
  dsimp only [rnow]
  rw [if_neg (by simp), if_neg (by simp)]
  have hgdb : getDB (setDB { m with tick := m.tick + 1 }
      (dbArchiveTx (getDB { m with tick := m.tick + 1 }) events
        { path := path, sha256 := sha, sizeBytes := (utf8Bytes f.content).length,
          modUnixNano := f.modUnixNano, processedAt := env.clock m.tick,
          allSent := false, deleted := false })) =
      dbArchiveTx (getDB m) events
        { path := path, sha256 := sha, sizeBytes := (utf8Bytes f.content).length,
          modUnixNano := f.modUnixNano, processedAt := env.clock m.tick,
          allSent := false, deleted := false } :=
    getDB_setDB { m with tick := m.tick + 1 } _ K hK
  refine ⟨rfl, (setDB_fs _ _).trans rfl, (setDB_curKey _ _).trans rfl,
    (setDB_cfg _ _).trans rfl,
    { path := path, sha256 := sha, sizeBytes := (utf8Bytes f.content).length,
      modUnixNano := f.modUnixNano, processedAt := env.clock m.tick,
      allSent := false, deleted := false }, ?_, rfl, rfl, rfl, rfl⟩
  exact hgdb

theorem archiveAndMarkFile_fail (env : Env) (path sha : String) (f : FSFile)
    (evs0 : List SpoolEvent) (dl : Option Int) (m : M) (K : Int)
    (hK : m.curKey = some K) (hfail : ∀ i, env.sendOK i = false)
    (hne : evs0 ≠ []) :
    (archiveAndMarkFile env path sha f evs0 dl "" false m).2 = none ∧
    (archiveAndMarkFile env path sha f evs0 dl "" false m).1.fs = m.fs ∧
    (archiveAndMarkFile env path sha f evs0 dl "" false m).1.curKey = m.curKey ∧
    (archiveAndMarkFile env path sha f evs0 dl "" false m).1.cfg = m.cfg ∧
    (∃ pf1 : ProcessedFile,
      (getDB (archiveAndMarkFile env path sha f evs0 dl "" false m).1).files =
        (getDB m).files ++ [pf1] ∧
      pf1.path = path ∧ pf1.sha256 = sha ∧ pf1.allSent = false ∧
      pf1.deleted = false) ∧
    ((getDB (archiveAndMarkFile env path sha f evs0 dl "" false m).1).events = [] →
       False) ∧
    (∀ e ∈ (getDB (archiveAndMarkFile env path sha f evs0 dl "" false m).1).events,
      e ∈ (getDB m).events ∨
        (e.sentSyslog = false ∧ (∃ i, e.sendError = env.sendErrMsg i) ∧
         ∃ ev ∈ evs0, e.sourcePath = ev.sourcePath ∧ e.fileSHA256 = ev.fileSHA256)) := by
  obtain ⟨hnil, hallsent, hmem, hst, hfs, hck, hcfg⟩ :=
    archiveSendLoop_fail env path dl hfail evs0 m
  have hAF : archiveAndMarkFile env path sha f evs0 dl "" false m =
      archiveMark env path sha f (archiveSendLoop env path dl evs0 m).1 false ""
        false (archiveSendLoop env path dl evs0 m).2.2 := by
    unfold archiveAndMarkFile
    dsimp only
    rw [hallsent hne]
  obtain ⟨e2, fs2, ck2, cfg2, pf1, hgdb, hp1, hp2, hp3, hp4⟩ :=
    archiveMark_fail env path sha f (archiveSendLoop env path dl evs0 m).1
      (archiveSendLoop env path dl evs0 m).2.2 K (hck.trans hK)
  have hgm : getDB (archiveSendLoop env path dl evs0 m).2.2 = getDB m :=
    getDB_congr _ _ (by rw [hck]) (by rw [hst])
  rw [hAF]
  rw [hgm] at hgdb
  refine ⟨e2, fs2.trans hfs, ck2.trans hck, cfg2.trans hcfg,
    ⟨{ pf1 with id := (getDB m).nextFileId }, ?_, by rw [← hp1],
     by rw [← hp2], by rw [← hp3], by rw [← hp4]⟩, ?_, ?_⟩
  · rw [hgdb, dbArchiveTx_files]
  · intro hempty
    rw [hgdb] at hempty
    unfold dbArchiveTx at hempty
    dsimp only at hempty
    rcases List.append_eq_nil.mp hempty with ⟨-, hmapnil⟩
    rw [List.map_eq_nil_iff] at hmapnil
    have : (archiveSendLoop env path dl evs0 m).1 = [] := by
      cases hh : (archiveSendLoop env path dl evs0 m).1 with
      | nil => rfl
      | cons a t =>
        rw [hh] at hmapnil
        cases hmapnil
    exact hne (hnil.mp this)
  · intro e he
    rw [hgdb] at he
    rcases dbArchiveTx_events_mem _ _ _ e he with h | ⟨ev', hev', n, rfl⟩
    · exact Or.inl h
    · obtain ⟨q1, q2, ev0, hev0, q3, q4⟩ := hmem ev' hev'
      refine Or.inr ⟨?_, ?_, ev0, hev0, ?_, ?_⟩
      · exact q1
      · exact q2
      · exact q3
      · exact q4

theorem toEvents_props (env : Env) (cfg : RunnerConfig) (decoded : JVal)
    (raw sp st at_ fs : String) (now : Int) :
    ∀ ev ∈ toEvents env cfg decoded raw sp st at_ fs now,
      ev.sourcePath = sp ∧ ev.fileSHA256 = fs := by
  intro ev hev
  cases decoded <;> dsimp only [toEvents] at hev
  case jarr v =>
    obtain ⟨ci, hci, rfl⟩ := List.mem_map.mp hev
    exact ⟨rfl, rfl⟩
  all_goals
    rw [List.mem_singleton] at hev
  all_goals subst hev
  all_goals exact ⟨rfl, rfl⟩

theorem toEvents_ne_nil (env : Env) (cfg : RunnerConfig) (decoded : JVal)
    (raw sp st at_ fs : String) (now : Int)
    (hdne : ∀ v, decoded = JVal.jarr v → v ≠ []) :
    toEvents env cfg decoded raw sp st at_ fs now ≠ [] := by
  intro hcontra
  cases decoded <;> dsimp only [toEvents] at hcontra
  case jarr v =>
    have hv := hdne v rfl
    rw [List.map_eq_nil_iff] at hcontra
    cases v with
    | nil => exact hv rfl
    | cons a t => simp [List.enum, List.enumFrom] at hcontra
  all_goals exact List.cons_ne_nil _ _ hcontra

theorem ingestFile_build (env : Env) (p at_ : String) (dl : Option Int) (m : M)
    (f : FSFile) (hf : fsFind m p = some f)
    (hcontent : ¬ (utf8Bytes f.content).length ≤ 0)
    (hnotproc : isAlreadyProcessed (getDB m) p (sha256Hex f.content) = false)
    (decoded : JVal) (hdec : env.decode f.content = some decoded) :
    ingestFile env p at_ "" dl m =
      archiveAndMarkFile env p (sha256Hex f.content) f
        (toEvents env m.cfg decoded f.content p (inferSourceType p)
          (if goTrimSpace at_ = "" then inferAlertType p else goTrimSpace at_)
          (sha256Hex f.content) (env.clock m.tick))
        dl "" false { m with tick := m.tick + 1 } := by
  unfold ingestFile
  rw [hf]
  dsimp only
  rw [if_neg hcontent, hnotproc]
  simp only [Bool.false_eq_true, if_false]
  rw [hdec]
  rfl

theorem expandInputs_single (env : Env) (g at_ p : String)
    (hg : goTrimSpace g ≠ "") (hglob : env.glob g = [p]) :
    expandInputs env [{ Glob := g, AlertType := at_, ErrorDir := "" }] =
      [{ Path := p, AlertType := at_, ErrorDir := "" }] := by
  unfold expandInputs expandInputs.go
  dsimp only
  rw [if_neg hg, hglob]
  rfl

theorem getDB_stats_congr (x : M) (st : RunStats) :
    getDB { cfg := x.cfg, stores := x.stores, curKey := x.curKey, fs := x.fs,
            sends := x.sends, tick := x.tick, stats := st } = getDB x :=
  getDB_congr _ x rfl rfl

theorem getDB_setDB_isSome (x : M) (db : DBState)
    (hx : x.curKey.isSome = true) : getDB (setDB x db) = db := by
  cases h : x.curKey with
  | none => rw [h] at hx; cases hx
  | some k => exact getDB_setDB x db k h

theorem resendOne_fail (env : Env) (dl : Option Int) (ev : SpoolEvent) (m : M)
    (K : Int) (hK : m.curKey = some K) (hfail : ∀ i, env.sendOK i = false) :
    (resendOne env dl ev m).fs = m.fs ∧
    (resendOne env dl ev m).curKey = m.curKey ∧
    (resendOne env dl ev m).cfg = m.cfg ∧
    (getDB (resendOne env dl ev m)).files = (getDB m).files ∧
    (getDB (resendOne env dl ev m)).events =
      (getDB m).events.map (fun r => if r.id == ev.id then
        { r with sendError := env.sendErrMsg m.sends.length } else r) := by
  unfold resendOne noteLagOfJSON remainingTimeoutM doSend rnow
  cases dl
  all_goals
    dsimp only
    simp only [hfail, Bool.false_eq_true, if_false]
    refine ⟨setDB_fs _ _, setDB_curKey _ _, setDB_cfg _ _, ?_, ?_⟩
    · rw [getDB_stats_congr, getDB_setDB_isSome]
      · rfl
      · simp [hK]
    · rw [getDB_stats_congr, getDB_setDB_isSome]
      · rfl
      · simp [hK]

theorem resendOne_ok (env : Env) (dl : Option Int) (ev : SpoolEvent) (m : M)
    (K : Int) (hK : m.curKey = some K) (hok : ∀ i, env.sendOK i = true) :
    (resendOne env dl ev m).fs = m.fs ∧
    (resendOne env dl ev m).curKey = m.curKey ∧
    (resendOne env dl ev m).cfg = m.cfg ∧
    (getDB (resendOne env dl ev m)).files = (getDB m).files ∧
    ∃ t, (getDB (resendOne env dl ev m)).events =
      (getDB m).events.map (fun r => if r.id == ev.id then
        { r with sentSyslog := true, sendError := "", sentAt := some t } else r) := by
  unfold resendOne noteLagOfJSON remainingTimeoutM doSend rnow
  cases dl with
  | none =>
    dsimp only
    simp only [hok, eq_self_iff_true, if_true]
    refine ⟨setDB_fs _ _, setDB_curKey _ _, setDB_cfg _ _, ?_,
            env.clock (m.tick + 1), ?_⟩
    · rw [getDB_stats_congr, getDB_setDB_isSome]
      · rfl
      · simp [hK]
    · rw [getDB_stats_congr, getDB_setDB_isSome]
      · rfl
      · simp [hK]
  | some d =>
    dsimp only
    simp only [hok, eq_self_iff_true, if_true]
    refine ⟨setDB_fs _ _, setDB_curKey _ _, setDB_cfg _ _, ?_,
            env.clock (m.tick + 1 + 1), ?_⟩
    · rw [getDB_stats_congr, getDB_setDB_isSome]
      · rfl
      · simp [hK]
    · rw [getDB_stats_congr, getDB_setDB_isSome]
      · rfl
      · simp [hK]

theorem resendLoop_none_err (env : Env) : ∀ (evs : List SpoolEvent) (m : M),
    (resendLoop env none evs m).2 = none := by
  intro evs
  induction evs with
  | nil => intro m; rfl
  | cons ev rest ih => intro m; exact ih (resendOne env none ev m)

theorem resendLoop_fail_inv (env : Env) (hfail : ∀ i, env.sendOK i = false)
    (Q : SpoolEvent → Prop)
    (hQ : ∀ (r : SpoolEvent) (i : Nat), Q r →
      Q { r with sendError := env.sendErrMsg i }) :
    ∀ (evs : List SpoolEvent) (m : M) (K : Int), m.curKey = some K →
    (resendLoop env none evs m).1.fs = m.fs ∧
    (resendLoop env none evs m).1.curKey = m.curKey ∧
    (resendLoop env none evs m).1.cfg = m.cfg ∧
    (getDB (resendLoop env none evs m).1).files = (getDB m).files ∧
    (getDB (resendLoop env none evs m).1).events.length =
      (getDB m).events.length ∧
    ((∀ r ∈ (getDB m).events, Q r) →
      ∀ r ∈ (getDB (resendLoop env none evs m).1).events, Q r) := by
  intro evs
  induction evs with
  | nil => intro m K hK; exact ⟨rfl, rfl, rfl, rfl, rfl, fun h => h⟩
  | cons ev rest ih =>
    intro m K hK
    obtain ⟨f1, c1, g1, fl1, ev1⟩ := resendOne_fail env none ev m K hK hfail
    obtain ⟨f2, c2, g2, fl2, ln2, ev2⟩ := ih (resendOne env none ev m) K (c1.trans hK)
    have hred : resendLoop env none (ev :: rest) m =
        resendLoop env none rest (resendOne env none ev m) := rfl
    rw [hred]
    have hln : (getDB (resendOne env none ev m)).events.length =
        (getDB m).events.length := by
      rw [ev1, List.length_map]
    refine ⟨f2.trans f1, c2.trans c1, g2.trans g1, fl2.trans fl1,
            ln2.trans hln, ?_⟩
    intro hall r hr
    refine ev2 ?_ r hr
    intro r' hr'
    rw [ev1] at hr'
    obtain ⟨r0, hr0, rfl⟩ := List.mem_map.mp hr'
    by_cases hid : (r0.id == ev.id) = true
    · rw [if_pos hid]
      exact hQ r0 _ (hall r0 hr0)
    · rw [if_neg hid]
      exact hall r0 hr0

theorem resendLoop_ok_spec (env : Env) (hok : ∀ i, env.sendOK i = true) :
    ∀ (evs : List SpoolEvent) (m : M) (K : Int), m.curKey = some K →
    (resendLoop env none evs m).1.fs = m.fs ∧
    (resendLoop env none evs m).1.curKey = m.curKey ∧
    (resendLoop env none evs m).1.cfg = m.cfg ∧
    (getDB (resendLoop env none evs m).1).files = (getDB m).files ∧
    (getDB (resendLoop env none evs m).1).events.length =
      (getDB m).events.length ∧
    (∀ r ∈ (getDB (resendLoop env none evs m).1).events,
       ∃ r0 ∈ (getDB m).events, r.id = r0.id ∧ r.sourcePath = r0.sourcePath ∧
         r.fileSHA256 = r0.fileSHA256 ∧
         ((r.sentSyslog = true ∧ r.sendError = "") ∨ r = r0)) ∧
    (∀ r ∈ (getDB (resendLoop env none evs m).1).events,
       (∃ e ∈ evs, r.id = e.id) → r.sentSyslog = true ∧ r.sendError = "") := by
  intro evs
  induction evs with
  | nil =>
    intro m K hK
    refine ⟨rfl, rfl, rfl, rfl, rfl, ?_, ?_⟩
    · intro r hr; exact ⟨r, hr, rfl, rfl, rfl, Or.inr rfl⟩
    · intro r hr ⟨e, he, _⟩; cases he
  | cons ev rest ih =>
    intro m K hK
    obtain ⟨f1, c1, g1, fl1, t, ev1⟩ := resendOne_ok env none ev m K hK hok
    obtain ⟨f2, c2, g2, fl2, ln2, prov2, good2⟩ :=
      ih (resendOne env none ev m) K (c1.trans hK)
    have hred : resendLoop env none (ev :: rest) m =
        resendLoop env none rest (resendOne env none ev m) := rfl
    rw [hred]
    have hln : (getDB (resendOne env none ev m)).events.length =
        (getDB m).events.length := by
      rw [ev1, List.length_map]
    have hmid : ∀ r1 ∈ (getDB (resendOne env none ev m)).events,
        ∃ r0 ∈ (getDB m).events, r1.id = r0.id ∧ r1.sourcePath = r0.sourcePath ∧
          r1.fileSHA256 = r0.fileSHA256 ∧
          ((r1.sentSyslog = true ∧ r1.sendError = "") ∨ r1 = r0) ∧
          ((r0.id = ev.id) → r1.sentSyslog = true ∧ r1.sendError = "") := by
      intro r1 hr1
      rw [ev1] at hr1
      obtain ⟨r0, hr0, rfl⟩ := List.mem_map.mp hr1
      by_cases hid : (r0.id == ev.id) = true
      · rw [if_pos hid]
        exact ⟨r0, hr0, rfl, rfl, rfl, Or.inl ⟨rfl, rfl⟩, fun _ => ⟨rfl, rfl⟩⟩
      · rw [if_neg hid]
        refine ⟨r0, hr0, rfl, rfl, rfl, Or.inr rfl, ?_⟩
        intro heq
        exact absurd (beq_iff_eq.mpr heq) hid
    refine ⟨f2.trans f1, c2.trans c1, g2.trans g1, fl2.trans fl1,
            ln2.trans hln, ?_, ?_⟩
    · intro r hr
      obtain ⟨r1, hr1, hid1, hsp1, hsha1, hd1⟩ := prov2 r hr
      obtain ⟨r0, hr0, hid0, hsp0, hsha0, hd0, -⟩ := hmid r1 hr1
      refine ⟨r0, hr0, hid1.trans hid0, hsp1.trans hsp0, hsha1.trans hsha0, ?_⟩
      rcases hd1 with hg | rfl
      · exact Or.inl hg
      · exact hd0
    · intro r hr ⟨e, he, hide⟩
      rcases List.mem_cons.mp he with rfl | he
      · obtain ⟨r1, hr1, hid1, -, -, hd1⟩ := prov2 r hr
        obtain ⟨r0, hr0, hid0, -, -, -, hgood⟩ := hmid r1 hr1
        have : r0.id = e.id := by rw [← hid0, ← hid1, hide]
        have hg1 := hgood this
        rcases hd1 with hg | rfl
        · exact hg
        · exact hg1
      · exact good2 r hr ⟨e, he, hide⟩

theorem finalizeOne_allUnsent (env : Env) (pf : ProcessedFile) (m : M)
    (hnone : ∀ r ∈ (getDB m).events, r.sentSyslog = false) :
    finalizeOne env pf m = m := by
  unfold finalizeOne
  dsimp only
  by_cases htot : ((getDB m).events.filter
      (fun ev => ev.sourcePath == pf.path && ev.fileSHA256 == pf.sha256)).length = 0
  · rw [if_pos htot]
  · rw [if_neg htot]
    have hsent : ((getDB m).events.filter
        (fun ev => ev.sourcePath == pf.path && ev.fileSHA256 == pf.sha256 &&
                   ev.sentSyslog == true)) = [] := by
      rw [List.filter_eq_nil_iff]
      intro r hr
      simp [hnone r hr]
    rw [hsent]
    have hallFalse : ((([] : List SpoolEvent).length) ==
        ((getDB m).events.filter
          (fun ev => ev.sourcePath == pf.path && ev.fileSHA256 == pf.sha256)).length) =
        false := by
      simp only [List.length_nil, beq_eq_false_iff_ne, ne_eq]
      omega
    rw [hallFalse]
    simp only [Bool.false_and, Bool.and_false, Bool.false_eq_true, if_false]

theorem fsFind_setDB (m : M) (db : DBState) (q : String) :
    fsFind (setDB m db) q = fsFind m q := by
  unfold fsFind
  rw [setDB_fs]

theorem fsFind_fsRemove_self (fs : List FSFile) (p : String) :
    (fs.filter (fun f => f.path != p)).find? (fun f => f.path == p) = none := by
  rw [List.find?_eq_none]
  intro x hx
  have h := (List.mem_filter.mp hx).2
  simp only [bne_iff_ne, ne_eq] at h
  simp [h]

theorem tryDeleteProcessedFile_ok (env : Env) (path sha : String) (m : M)
    (K : Int) (hK : m.curKey = some K) (ff : FSFile)
    (hfile : fsFind m path = some ff) :
    (tryDeleteProcessedFile env path sha m).2 = none ∧
    fsFind (tryDeleteProcessedFile env path sha m).1 path = none ∧
    (tryDeleteProcessedFile env path sha m).1.curKey = m.curKey ∧
    (tryDeleteProcessedFile env path sha m).1.cfg = m.cfg ∧
    (getDB (tryDeleteProcessedFile env path sha m).1).events = (getDB m).events ∧
    ∃ t, (getDB (tryDeleteProcessedFile env path sha m).1).files =
      (getDB m).files.map (fun q => if q.path == path && q.sha256 == sha then
        { q with deleted := true, deletedAt := some t, lastError := "" } else q) := by
  have hfile' : m.fs.find? (fun f => f.path == path) = some ff := hfile
  unfold tryDeleteProcessedFile fsFind fsRemove rnow
  dsimp only
  rw [hfile', Option.isSome_some, if_pos rfl]
  refine ⟨rfl, ?_, (setDB_curKey _ _).trans rfl, (setDB_cfg _ _).trans rfl,
          ?_, env.clock m.tick, ?_⟩
  · rw [setDB_fs]
    exact fsFind_fsRemove_self m.fs path
  · rw [getDB_setDB_isSome]
    · rfl
    · simp [hK]
  · rw [getDB_setDB_isSome]
    · rfl
    · simp [hK]

theorem finalizeOne_complete (env : Env) (pf : ProcessedFile) (m : M) (K : Int)
    (hK : m.curKey = some K) (hds : m.cfg.DeleteAfterSend = true)
    (hpfa : pf.allSent = false) (hpfd : pf.deleted = false)
    (ff : FSFile) (hfile : fsFind m pf.path = some ff)
    (hmatch : ∀ r ∈ (getDB m).events,
      (r.sourcePath == pf.path) = true ∧ (r.fileSHA256 == pf.sha256) = true ∧
      r.sentSyslog = true)
    (hne : (getDB m).events ≠ [])
    (hfiles : (getDB m).files = [pf]) :
    fsFind (finalizeOne env pf m) pf.path = none ∧
    (finalizeOne env pf m).curKey = m.curKey ∧
    (finalizeOne env pf m).cfg = m.cfg ∧
    (getDB (finalizeOne env pf m)).events = (getDB m).events ∧
    (∀ q ∈ (getDB (finalizeOne env pf m)).files,
       q.allSent = true ∧ q.deleted = true) := by
  have hfilt1 : (getDB m).events.filter
      (fun ev => ev.sourcePath == pf.path && ev.fileSHA256 == pf.sha256) =
      (getDB m).events := by
    apply List.filter_eq_self.mpr
    intro r hr
    rw [(hmatch r hr).1, (hmatch r hr).2.1]
    rfl
  have hfilt2 : (getDB m).events.filter
      (fun ev => ev.sourcePath == pf.path && ev.fileSHA256 == pf.sha256 &&
                 ev.sentSyslog == true) = (getDB m).events := by
    apply List.filter_eq_self.mpr
    intro r hr
    rw [(hmatch r hr).1, (hmatch r hr).2.1, (hmatch r hr).2.2]
    rfl
  have hlen : ¬ ((getDB m).events.length = 0) :=
    fun h => hne (List.length_eq_zero.mp h)
  have hK1 : (setDB m (dbUpdateFiles (getDB m) (fun r => r.id == pf.id)
      (fun r => { r with allSent := true, lastError := "" }))).curKey = some K :=
    (setDB_curKey _ _).trans hK
  have hfile1 : fsFind (setDB m (dbUpdateFiles (getDB m) (fun r => r.id == pf.id)
      (fun r => { r with allSent := true, lastError := "" }))) pf.path = some ff :=
    (fsFind_setDB _ _ _).trans hfile
  obtain ⟨td2, tdfs, tdck, tdcfg, tdev, t, tdfl⟩ :=
    tryDeleteProcessedFile_ok env pf.path pf.sha256
      (setDB m (dbUpdateFiles (getDB m) (fun r => r.id == pf.id)
        (fun r => { r with allSent := true, lastError := "" }))) K hK1 ff hfile1
  have hdb1 : getDB (setDB m (dbUpdateFiles (getDB m) (fun r => r.id == pf.id)
      (fun r => { r with allSent := true, lastError := "" }))) =
      dbUpdateFiles (getDB m) (fun r => r.id == pf.id)
        (fun r => { r with allSent := true, lastError := "" }) :=
    getDB_setDB_isSome _ _ (by simp [hK])
  unfold finalizeOne
  dsimp only
  rw [hfilt1, hfilt2, if_neg hlen, beq_self_eq_true, hpfa, hpfd]
  simp only [Bool.not_false, Bool.true_and, Bool.and_true, eq_self_iff_true,
    if_true]
  rw [setDB_cfg, hds]
  simp only [Bool.true_and, eq_self_iff_true, if_true]
  rw [fsFind_setDB, hfile]
  simp only [Option.isNone_some, Bool.false_eq_true, if_false]
  rw [td2]
  dsimp only
  refine ⟨tdfs, tdck.trans (setDB_curKey _ _), tdcfg.trans (setDB_cfg _ _),
          ?_, ?_⟩
  · rw [getDB_stats_congr, tdev, hdb1]
    rfl
  · intro q hq
    rw [getDB_stats_congr, tdfl, hdb1] at hq
    dsimp only [dbUpdateFiles] at hq
    rw [hfiles] at hq
    simp only [List.map_cons, List.map_nil] at hq
    rw [List.mem_singleton] at hq
    subst hq
    simp

theorem finalizeFiles_single (env : Env) (m : M) (pf : ProcessedFile)
    (hfiles : (getDB m).files = [pf]) (hpfa : pf.allSent = false) :
    finalizeFiles env m = (finalizeOne env pf m, none) := by
  unfold finalizeFiles
  rw [hfiles]
  have hf : List.filter (fun pf => pf.allSent == false || pf.deleted == false)
      [pf] = [pf] := by
    simp [hpfa]
  rw [hf]
  rfl

theorem finalizeLoop_allUnsent (env : Env) : ∀ (l : List ProcessedFile) (m : M),
    (∀ r ∈ (getDB m).events, r.sentSyslog = false) → finalizeLoop env l m = m := by
  intro l
  induction l with
  | nil => intro m _; rfl
  | cons pf rest ih =>
    intro m h
    show finalizeLoop env rest (finalizeOne env pf m) = m
    rw [finalizeOne_allUnsent env pf m h]
    exact ih m h

theorem resendPending_none_err (env : Env) (m : M) :
    (resendPending env none m).2 = none :=
  resendLoop_none_err env _ m

theorem resendPending_fail_inv (env : Env) (hfail : ∀ i, env.sendOK i = false)
    (Q : SpoolEvent → Prop)
    (hQ : ∀ (r : SpoolEvent) (i : Nat), Q r →
      Q { r with sendError := env.sendErrMsg i })
    (m : M) (K : Int) (hK : m.curKey = some K) :
    (resendPending env none m).1.fs = m.fs ∧
    (resendPending env none m).1.curKey = m.curKey ∧
    (resendPending env none m).1.cfg = m.cfg ∧
    (getDB (resendPending env none m).1).files = (getDB m).files ∧
    (getDB (resendPending env none m).1).events.length =
      (getDB m).events.length ∧
    ((∀ r ∈ (getDB m).events, Q r) →
      ∀ r ∈ (getDB (resendPending env none m).1).events, Q r) := by
  unfold resendPending
  exact resendLoop_fail_inv env hfail Q hQ _ m K hK

theorem resendPending_ok_all (env : Env) (hok : ∀ i, env.sendOK i = true)
    (m : M) (K : Int) (hK : m.curKey = some K)
    (hall0 : ∀ r ∈ (getDB m).events, r.sentSyslog = false) :
    (resendPending env none m).1.fs = m.fs ∧
    (resendPending env none m).1.curKey = m.curKey ∧
    (resendPending env none m).1.cfg = m.cfg ∧
    (getDB (resendPending env none m).1).files = (getDB m).files ∧
    (getDB (resendPending env none m).1).events.length =
      (getDB m).events.length ∧
    (∀ r ∈ (getDB (resendPending env none m).1).events,
      (∃ r0 ∈ (getDB m).events, r.sourcePath = r0.sourcePath ∧
        r.fileSHA256 = r0.fileSHA256) ∧
      r.sentSyslog = true ∧ r.sendError = "") := by
  obtain ⟨a, b, c, d, ln, prov, good⟩ :=
    resendLoop_ok_spec env hok
      ((getDB m).events.filter (fun ev => ev.sentSyslog == false)) m K hK
  refine ⟨a, b, c, d, ln, ?_⟩
  intro r hr
  obtain ⟨r0, hr0, hid, hsp, hsha, -⟩ := prov r hr
  refine ⟨⟨r0, hr0, hsp, hsha⟩, ?_⟩
  refine good r hr ⟨r0, ?_, hid⟩
  exact List.mem_filter.mpr ⟨hr0, by simp [hall0 r0 hr0]⟩

theorem finalizeFiles_allUnsent (env : Env) (m : M)
    (h : ∀ r ∈ (getDB m).events, r.sentSyslog = false) :
    finalizeFiles env m = (m, none) := by
  unfold finalizeFiles
  dsimp only
  rw [finalizeLoop_allUnsent env _ m h]

theorem runOnceMain_single (env : Env) (m : M) (K : Int) (g at_ p : String)
    (hfolder : goTrimSpace m.cfg.DBFolder ≠ "")
    (hkey : m.curKey = some K) (hym : ∀ n, env.ym (env.clock n) = K)
    (hRF : m.cfg.ReplayFrom = none)
    (hIG : m.cfg.InputGlobs = [])
    (hIn : m.cfg.Inputs = [{ Glob := g, AlertType := at_, ErrorDir := "" }])
    (hg : goTrimSpace g ≠ "") (hglob : env.glob g = [p]) :
    runOnceMain env none m =
      finalizeFiles env
        (resendPending env none
          (ingestFile env p at_ "" none { m with tick := m.tick + 1 }).1).1 := by
  unfold runOnceMain
  rw [ensureDB_noop env m K hfolder hkey (hym _)]
  dsimp only
  rw [hRF]
  dsimp only
  rw [hIG]
  have h1 : ingestPathsLoop env none (expandGlobs env [])
      { m with tick := m.tick + 1 } = ({ m with tick := m.tick + 1 }, none) := rfl
  rw [h1]
  dsimp only
  rw [hIn, expandInputs_single env g at_ p hg hglob]
  have h2 : ingestItemsLoop env none [{ Path := p, AlertType := at_, ErrorDir := "" }]
      { m with tick := m.tick + 1 } =
      ((ingestFile env p at_ "" none { m with tick := m.tick + 1 }).1, none) := rfl
  rw [h2]
  dsimp only [isDeadlineExceededM]
  simp only [Bool.false_eq_true, if_false]
  rw [resendPending_none_err env
    (ingestFile env p at_ "" none { m with tick := m.tick + 1 }).1]

theorem runOnce_single (env : Env) (m : M) (K : Int) (g at_ p : String)
    (hT : m.cfg.Timeout = 0) (htok : goTrimSpace m.cfg.DeadmanToken = "")
    (hfolder : goTrimSpace m.cfg.DBFolder ≠ "") (hkey : m.curKey = some K)
    (hym : ∀ n, env.ym (env.clock n) = K) (hRF : m.cfg.ReplayFrom = none)
    (hIG : m.cfg.InputGlobs = [])
    (hIn : m.cfg.Inputs = [{ Glob := g, AlertType := at_, ErrorDir := "" }])
    (hg : goTrimSpace g ≠ "") (hglob : env.glob g = [p]) :
    RunOnce env m =
      ((finalizeFiles env (resendPending env none
          (ingestFile env p at_ "" none
            { m with stats := {}, tick := m.tick + 1 + 1 }).1).1).1, none) := by
  have hmain := runOnceMain_single env { m with stats := {}, tick := m.tick + 1 }
    K g at_ p hfolder hkey hym hRF hIG hIn hg hglob
  unfold RunOnce
  dsimp only [rnow]
  simp only [hT, gt_iff_lt, lt_self_iff_false, if_false]
  rw [hmain]
  dsimp only
  have htok2 : goTrimSpace ((finalizeFiles env (resendPending env none
      (ingestFile env p at_ "" none
        { m with stats := ({} : RunStats), tick := m.tick + 1 + 1 }).1).1).1).cfg.DeadmanToken = "" := by
    rw [finalizeFiles_cfg, resendPending_cfg, ingestFile_cfg]
    exact htok
  rw [if_pos htok2]
  rfl

/-! ### Claim theorems (leaf components) -/

/-- C6 counterexample.  The claim names `tag` as the tenth key of the fixed
preferred list.  In the code that key is `cccc`, so on a map containing the
literal key `tag` the encoder treats it as an unrecognized extra key and
sorts it after `replay`, while the claim's rendering puts it before
`replay`: the two disagree at this concrete input, refuting the claim as
stated. -/
theorem claim_C6_counterexample :
    buildStructuredData "cndp" [("tag", "X"), ("replay", "true")] =
      "[cndp replay=\"true\" tag=\"X\"]" ∧
    specStructuredData claimPreferredOrder "cndp" [("tag", "X"), ("replay", "true")] =
      "[cndp tag=\"X\" replay=\"true\"]" ∧
    buildStructuredData "cndp" [("tag", "X"), ("replay", "true")] ≠
      specStructuredData claimPreferredOrder "cndp" [("tag", "X"), ("replay", "true")] := by
  refine ⟨by decide, by decide, by decide⟩

/-- C6 amended: with the tenth preferred key read as `cccc` (the code's
name for the tag key), the claim holds in full: an empty id falls back to
the literal `cndp`, and the encoder equals the spec-shaped rendering —
preferred keys first in the fixed order, keys with absent or blank values
omitted entirely, and all remaining keys appended sorted ascending. -/
theorem claim_C6_structured_data_contract :
    (∀ kv : List (String × String),
       buildStructuredData "" kv = buildStructuredData "cndp" kv) ∧
    (∀ (sdID : String) (kv : List (String × String)),
       buildStructuredData sdID kv = specStructuredData preferredOrder sdID kv) :=
  ⟨fun _ => rfl, buildSD_eq_spec⟩

/-- C4.  The claim states that any two key texts differing only in an
embedded timestamp substring of one of the fixed forms — sub-second
variants included — get equal fingerprints.  The code refutes it: because
the second-precision patterns run before the sub-second ones, the
fractional part survives normalization, so the two texts below — which
differ only inside a `\d{4}-\d{2}-\d{2} \d{2}:\d{2}:\d{2}\.\d{3,6}`
timestamp — normalize to different residues and their truncated SHA-256
fingerprints differ. -/
theorem claim_C4_subsecond_fingerprints_differ :
    NormalizeText "x 2026-02-07 12:00:00.123 y" = "x .123 y" ∧
    NormalizeText "x 2026-02-07 12:00:00.456 y" = "x .456 y" ∧
    HashNormalized (NormalizeText "x 2026-02-07 12:00:00.123 y") 24 ≠
      HashNormalized (NormalizeText "x 2026-02-07 12:00:00.456 y") 24 := by
  refine ⟨by decide, by decide, by decide⟩

/-- C5.  The claim states the pattern list is applied longest-first so that
a longer match is always removed in full, leaving no residue such as a
trailing sub-second fragment.  The code refutes it: `timestampPatterns`
orders the plain `HH:MM:SS` patterns before their `.\d{3,6}` extensions, so
on the input below the second-precision prefix is removed first and the
fragment `.123` remains in the normalized text. -/
theorem claim_C5_subsecond_residue_remains :
    NormalizeText "a 2026-02-07 12:00:00.123 b" = "a .123 b" ∧
    NormalizeText "a 2026-02-07 12:00:00.123 b" ≠ "a b" := by
  refine ⟨by decide, by decide⟩


/-- C7 counterexample.  The claim states that once the deadline has passed
the heartbeat send is attempted with a sub-millisecond timeout.  The code's
`remainingTimeout` returns exactly one millisecond in that case — not less
than a millisecond — at this concrete expired deadline. -/
theorem claim_C7_counterexample :
    remainingTimeout 10 (some 5) sendTimeoutCeiling = nsPerMs ∧
    ¬ remainingTimeout 10 (some 5) sendTimeoutCeiling < nsPerMs := by
  refine ⟨by decide, by decide⟩

/-- C7 amended: with a deadline set and time remaining, the per-send
timeout is the minimum of the (positive, fixed 3-second) ceiling and the
remainder; once the deadline has passed it is exactly one millisecond (so
the send is attempted, not skipped); without a deadline it is the ceiling;
and whenever a deadman token is configured the cycle's last send is the
deadman heartbeat, regardless of how the cycle went. -/
theorem claim_C7_timeout_amended :
    (∀ now d f : Int, 0 < d - now → 0 < f →
       remainingTimeout now (some d) f = min f (d - now)) ∧
    (∀ now d f : Int, d - now ≤ 0 → remainingTimeout now (some d) f = nsPerMs) ∧
    (∀ now f : Int, remainingTimeout now none f = f) ∧
    (∀ (env : Env) (m : M), goTrimSpace m.cfg.DeadmanToken ≠ "" →
       (((RunOnce env m).1).sends.getLast?).map (fun r => r.kind) =
         some SendKind.deadman) := by
  refine ⟨?_, ?_, fun _ _ => rfl, ?_⟩
  · intro now d f h1 h2
    simp only [remainingTimeout]
    rw [if_neg (by omega)]
    by_cases hc : d - now < f
    · rw [if_pos (Or.inr hc), min_eq_right (le_of_lt hc)]
    · rw [if_neg (by push_neg; exact ⟨by omega, by omega⟩), min_eq_left (by omega)]
  · intro now d f h
    simp [remainingTimeout, h]
  · intro env m h
    unfold RunOnce
    dsimp only
    split <;>
    · split
      · rename_i hEmpty
        exfalso
        apply h
        rw [runOnceMain_cfgTok] at hEmpty
        exact hEmpty
      · exact sendDeadman_last env _ _ _ _ _

/-- Witness for C7 at concrete instants, including a cycle whose deadline
is already exceeded mid-run but whose last send is still the deadman
heartbeat. -/
theorem claim_C7_timeout_amended_witness :
    (0 : Int) < 7 - 5 ∧ (0 : Int) < sendTimeoutCeiling ∧
    remainingTimeout 5 (some 7) sendTimeoutCeiling = min sendTimeoutCeiling (7 - 5) ∧
    remainingTimeout 10 (some 5) sendTimeoutCeiling = nsPerMs ∧
    (((RunOnce c7Env c7M).1).sends.getLast?).map (fun r => r.kind) =
      some SendKind.deadman :=
  ⟨by decide, by decide,
   claim_C7_timeout_amended.1 5 7 sendTimeoutCeiling (by decide) (by decide),
   claim_C7_timeout_amended.2.1 10 5 sendTimeoutCeiling (by decide),
   claim_C7_timeout_amended.2.2.2 c7Env c7M (by decide)⟩

/-- C2.  Idempotent re-ingestion.  First conjunct: whenever the (path,
whole-file digest) pair of an input file is already present in the file
ledger, `ingestFile` returns with the state untouched — no new rows, no
sends, nothing.  Second conjunct: a full cycle (no replay, no deadline)
over input files that are each absent, empty, or already fully archived,
on a store where every event is sent and every file row is complete,
changes no table and no file and performs no delivery sends — at most the
deadman heartbeat goes out. -/
theorem claim_C2_idempotent_reingestion :
    (∀ (env : Env) (p at_ ed : String) (dl : Option Int) (m : M) (f : FSFile),
       fsFind m p = some f →
       isAlreadyProcessed (getDB m) p (sha256Hex f.content) = true →
       ingestFile env p at_ ed dl m = (m, none)) ∧
    (∀ (env : Env) (m : M) (K : Int),
       m.cfg.ReplayFrom = none →
       m.cfg.Timeout = 0 →
       goTrimSpace m.cfg.DBFolder ≠ "" →
       m.curKey = some K →
       (∀ n, env.ym (env.clock n) = K) →
       (∀ ev ∈ (getDB m).events, ev.sentSyslog = true) →
       (∀ pf ∈ (getDB m).files, pf.allSent = true ∧ pf.deleted = true) →
       (∀ q ∈ expandGlobs env m.cfg.InputGlobs, ingestSkips m q) →
       (∀ it ∈ expandInputs env m.cfg.Inputs, ingestSkips m it.Path) →
       (RunOnce env m).2 = none ∧
       getDB (RunOnce env m).1 = getDB m ∧
       (RunOnce env m).1.stores = m.stores ∧
       (RunOnce env m).1.fs = m.fs ∧
       (∀ r ∈ (RunOnce env m).1.sends.drop m.sends.length,
          r.kind = SendKind.deadman)) := by
  constructor
  · exact ingestFile_already
  · intro env m K hreplay hT hfolder hkey hym hsent hdone hglobs hinputs
    have hens := ensureDB_noop env { m with stats := {}, tick := m.tick + 1 } K
      hfolder hkey (hym _)
    have hpaths := ingestPathsLoop_noop env (expandGlobs env m.cfg.InputGlobs)
      { m with stats := {}, tick := m.tick + 1 + 1 } (fun q hq => hglobs q hq)
    have hitems := ingestItemsLoop_noop env (expandInputs env m.cfg.Inputs)
      { m with stats := {}, tick := m.tick + 1 + 1 } (fun it hit => hinputs it hit)
    have hres := resendPending_nopending env none
      { m with stats := {}, tick := m.tick + 1 + 1 } (fun ev hev => hsent ev hev)
    have hfin := finalizeFiles_done env
      { m with stats := {}, tick := m.tick + 1 + 1 } (fun pf hpf => hdone pf hpf)
    have hmain : runOnceMain env none { m with stats := {}, tick := m.tick + 1 } =
        ({ m with stats := {}, tick := m.tick + 1 + 1 }, none) := by
      unfold runOnceMain
      rw [hens]
      dsimp only
      rw [hreplay]
      dsimp only
      rw [hpaths]
      dsimp only
      rw [hitems]
      dsimp only [isDeadlineExceededM]
      simp only [Bool.false_eq_true, if_false]
      rw [hres]
      dsimp only
      rw [hfin]
    have hrun : RunOnce env m =
        (if goTrimSpace m.cfg.DeadmanToken = "" then
           ({ m with stats := {}, tick := m.tick + 1 + 1 }, none)
         else
           ((sendDeadman env none (env.clock m.tick) (env.clock (m.tick + 1 + 1))
              none { m with stats := {}, tick := m.tick + 1 + 1 + 1 }).1, none)) := by
      unfold RunOnce
      dsimp only [rnow]
      simp only [hT, gt_iff_lt, lt_self_iff_false, if_false]
      rw [hmain]
    rw [hrun]
    by_cases htok : goTrimSpace m.cfg.DeadmanToken = ""
    · rw [if_pos htok]
      refine ⟨rfl, rfl, rfl, rfl, ?_⟩
      intro r hr
      rw [List.drop_length] at hr
      cases hr
    · rw [if_neg htok]
      obtain ⟨rec, hsends, hkind, hstores, hcur, hfs⟩ :=
        sendDeadman_shape env none (env.clock m.tick) (env.clock (m.tick + 1 + 1))
          none { m with stats := {}, tick := m.tick + 1 + 1 + 1 }
      have hbase : ({ m with stats := {}, tick := m.tick + 1 + 1 + 1 } : M).sends = m.sends := rfl
      rw [hbase] at hsends
      refine ⟨rfl, ?_, ?_, ?_, ?_⟩
      · exact getDB_congr _ _ (by rw [hcur]) (by rw [hstores])
      · rw [hstores]
      · rw [hfs]
      · intro r hr
        rw [hsends, List.drop_left, List.mem_singleton] at hr
        rw [hr, hkind]

set_option maxRecDepth 20000 in
/-- Witness for C2: a concrete store whose only file row (path, digest) is
complete and whose events are sent, with the source file still on disk and
matching the ledger digest; the re-run cycle changes nothing and sends
nothing. -/
theorem claim_C2_idempotent_reingestion_witness :
    fsFind c2M "/in/a.warn" = some { path := "/in/a.warn", content := "FILE1" } ∧
    isAlreadyProcessed (getDB c2M) "/in/a.warn" (sha256Hex "FILE1") = true ∧
    ingestFile c2Env "/in/a.warn" "x" "" none c2M = (c2M, none) ∧
    (RunOnce c2Env c2M).2 = none ∧
    getDB (RunOnce c2Env c2M).1 = getDB c2M ∧
    (RunOnce c2Env c2M).1.fs = c2M.fs :=
  ⟨by decide, by decide,
   claim_C2_idempotent_reingestion.1 c2Env "/in/a.warn" "x" "" none c2M
     { path := "/in/a.warn", content := "FILE1" } (by decide) (by decide),
   (claim_C2_idempotent_reingestion.2 c2Env c2M 202602 rfl rfl (by decide) rfl
     (fun _ => rfl) (by decide) (by decide) (by decide) (by decide)).1,
   (claim_C2_idempotent_reingestion.2 c2Env c2M 202602 rfl rfl (by decide) rfl
     (fun _ => rfl) (by decide) (by decide) (by decide) (by decide)).2.1,
   (claim_C2_idempotent_reingestion.2 c2Env c2M 202602 rfl rfl (by decide) rfl
     (fun _ => rfl) (by decide) (by decide) (by decide) (by decide)).2.2.2.1⟩

/-- C1 (amended).  At-least-once with no premature deletion, corrected for
the same-cycle retry: (1) in a single-input cycle that newly ingests a
decodable file into a fresh monthly store, if every send of the cycle
fails — so the delivery failure persists through the cycle's own resend
pass — then after the cycle the source file still exists on disk, the
file's ledger row is not all-sent and not deleted, and every one of the
file's event rows has sent=false with a non-empty send-error text; and
(2) from any such post-failure state, a later cycle whose sends all
succeed ends with every event row sent=true with the error text cleared,
the file row marked all-sent and deleted, and the source file deleted
from disk. -/
theorem claim_C1_at_least_once :
    (∀ (env : Env) (m : M) (K : Int) (g at_ p : String) (f : FSFile)
       (decoded : JVal),
       m.cfg.Timeout = 0 →
       goTrimSpace m.cfg.DeadmanToken = "" →
       goTrimSpace m.cfg.DBFolder ≠ "" →
       m.curKey = some K →
       (∀ n, env.ym (env.clock n) = K) →
       m.cfg.ReplayFrom = none →
       m.cfg.InputGlobs = [] →
       m.cfg.Inputs = [{ Glob := g, AlertType := at_, ErrorDir := "" }] →
       goTrimSpace g ≠ "" →
       env.glob g = [p] →
       fsFind m p = some f →
       ¬ (utf8Bytes f.content).length ≤ 0 →
       env.decode f.content = some decoded →
       (∀ v, decoded = JVal.jarr v → v ≠ []) →
       getDB m = {} →
       (∀ i, env.sendOK i = false) →
       (∀ i, env.sendErrMsg i ≠ "") →
       ((RunOnce env m).2 = none ∧
        (RunOnce env m).1.cfg = m.cfg ∧
        (RunOnce env m).1.curKey = some K ∧
        fsFind (RunOnce env m).1 p = some f ∧
        (getDB (RunOnce env m).1).files.length = 1 ∧
        (∀ q ∈ (getDB (RunOnce env m).1).files,
           q.path = p ∧ q.sha256 = sha256Hex f.content ∧
           q.allSent = false ∧ q.deleted = false) ∧
        (getDB (RunOnce env m).1).events ≠ [] ∧
        (∀ r ∈ (getDB (RunOnce env m).1).events,
           r.sourcePath = p ∧ r.fileSHA256 = sha256Hex f.content ∧
           r.sentSyslog = false ∧ r.sendError ≠ ""))) ∧
    (∀ (env : Env) (m : M) (K : Int) (g at_ p : String) (f : FSFile),
       m.cfg.Timeout = 0 →
       goTrimSpace m.cfg.DeadmanToken = "" →
       goTrimSpace m.cfg.DBFolder ≠ "" →
       m.cfg.DeleteAfterSend = true →
       m.curKey = some K →
       (∀ n, env.ym (env.clock n) = K) →
       m.cfg.ReplayFrom = none →
       m.cfg.InputGlobs = [] →
       m.cfg.Inputs = [{ Glob := g, AlertType := at_, ErrorDir := "" }] →
       goTrimSpace g ≠ "" →
       env.glob g = [p] →
       fsFind m p = some f →
       (getDB m).files.length = 1 →
       (∀ q ∈ (getDB m).files,
          q.path = p ∧ q.sha256 = sha256Hex f.content ∧
          q.allSent = false ∧ q.deleted = false) →
       (getDB m).events ≠ [] →
       (∀ r ∈ (getDB m).events,
          r.sourcePath = p ∧ r.fileSHA256 = sha256Hex f.content ∧
          r.sentSyslog = false) →
       (∀ i, env.sendOK i = true) →
       ((RunOnce env m).2 = none ∧
        fsFind (RunOnce env m).1 p = none ∧
        (∀ r ∈ (getDB (RunOnce env m).1).events,
           r.sentSyslog = true ∧ r.sendError = "") ∧
        (∀ q ∈ (getDB (RunOnce env m).1).files,
           q.allSent = true ∧ q.deleted = true))) := by
  constructor
  · intro env m K g at_ p f decoded hT htok hfolder hkey hym hRF hIG hIn hg
      hglob hfs hcontent hdec hdne hdb hfail hem
    have hnotproc : isAlreadyProcessed (getDB m) p (sha256Hex f.content) = false := by
      rw [hdb]
      rfl
    rw [runOnce_single env m K g at_ p hT htok hfolder hkey hym hRF hIG hIn hg hglob]
    have hbuild := ingestFile_build env p at_ none
      { m with stats := ({} : RunStats), tick := m.tick + 1 + 1 } f hfs hcontent
      hnotproc decoded hdec
    rw [hbuild]
    dsimp only
    obtain ⟨hAe, hAfs, hAck, hAcfg, ⟨pf1, hAfiles, hp1, hp2, hp3, hp4⟩, hAneF, hAmem⟩ :=
      archiveAndMarkFile_fail env p (sha256Hex f.content) f
        (toEvents env m.cfg decoded f.content p (inferSourceType p)
          (if goTrimSpace at_ = "" then inferAlertType p else goTrimSpace at_)
          (sha256Hex f.content) (env.clock (m.tick + 1 + 1)))
        none { m with stats := ({} : RunStats), tick := m.tick + 1 + 1 + 1 }
        K hkey hfail (toEvents_ne_nil _ _ _ _ _ _ _ _ _ hdne)
    have hQall : ∀ e ∈ (getDB (archiveAndMarkFile env p (sha256Hex f.content) f
        (toEvents env m.cfg decoded f.content p (inferSourceType p)
          (if goTrimSpace at_ = "" then inferAlertType p else goTrimSpace at_)
          (sha256Hex f.content) (env.clock (m.tick + 1 + 1)))
        none "" false
        { m with stats := ({} : RunStats), tick := m.tick + 1 + 1 + 1 }).1).events,
        e.sourcePath = p ∧ e.fileSHA256 = sha256Hex f.content ∧
        e.sentSyslog = false ∧ e.sendError ≠ "" := by
      intro e he
      rcases hAmem e he with h | ⟨hs, ⟨i, herr⟩, ev, hev, hsp, hsha⟩
      · have h' : e ∈ (getDB m).events := h
        rw [hdb] at h'
        simp at h'
      · obtain ⟨hsp', hsha'⟩ := toEvents_props env m.cfg decoded f.content p
          (inferSourceType p) _ (sha256Hex f.content) _ ev hev
        refine ⟨hsp.trans hsp', hsha.trans hsha', hs, ?_⟩
        rw [herr]
        exact hem i
    obtain ⟨hRfs, hRck, hRcfg, hRfiles, hRlen, hRq⟩ :=
      resendPending_fail_inv env hfail
        (fun r => r.sourcePath = p ∧ r.fileSHA256 = sha256Hex f.content ∧
                  r.sentSyslog = false ∧ r.sendError ≠ "")
        (fun r i hQr => ⟨hQr.1, hQr.2.1, hQr.2.2.1, hem i⟩)
        (archiveAndMarkFile env p (sha256Hex f.content) f
          (toEvents env m.cfg decoded f.content p (inferSourceType p)
            (if goTrimSpace at_ = "" then inferAlertType p else goTrimSpace at_)
            (sha256Hex f.content) (env.clock (m.tick + 1 + 1)))
          none "" false
          { m with stats := ({} : RunStats), tick := m.tick + 1 + 1 + 1 }).1
        K (hAck.trans hkey)
    have hQB := hRq hQall
    have hfinEq := finalizeFiles_allUnsent env _ (fun r hr => (hQB r hr).2.2.1)
    rw [hfinEq]
    dsimp only
    have hdbfiles :
        (getDB ({ m with stats := ({} : RunStats), tick := m.tick + 1 + 1 + 1 } : M)).files =
        [] := by
      rw [show getDB ({ m with stats := ({} : RunStats), tick := m.tick + 1 + 1 + 1 } : M) =
        getDB m from rfl, hdb]
    refine ⟨rfl, hRcfg.trans hAcfg, hRck.trans (hAck.trans hkey), ?_, ?_, ?_, ?_, ?_⟩
    · unfold fsFind
      rw [hRfs, hAfs]
      exact hfs
    · rw [hRfiles, hAfiles, hdbfiles]
      rfl
    · intro q hq
      rw [hRfiles, hAfiles, hdbfiles] at hq
      rw [List.nil_append, List.mem_singleton] at hq
      subst hq
      exact ⟨hp1, hp2, hp3, hp4⟩
    · intro hc
      apply hAneF
      have hlen0 := congrArg List.length hc
      rw [hRlen] at hlen0
      exact List.length_eq_zero.mp hlen0
    · exact hQB
  · intro env m K g at_ p f hT htok hfolder hdel hkey hym hRF hIG hIn hg hglob
      hfs hflen hfprops hne hrprops hok
    obtain ⟨pf1, hfiles1⟩ := List.length_eq_one.mp hflen
    have hpf1mem : pf1 ∈ (getDB m).files := by
      rw [hfiles1]
      exact List.mem_singleton_self _
    obtain ⟨hq1, hq2, hq3, hq4⟩ := hfprops pf1 hpf1mem
    have halready : isAlreadyProcessed (getDB m) p (sha256Hex f.content) = true := by
      unfold isAlreadyProcessed
      rw [hfiles1]
      simp [hq1, hq2]
    rw [runOnce_single env m K g at_ p hT htok hfolder hkey hym hRF hIG hIn hg hglob]
    have hskip := ingestFile_already env p at_ "" none
      { m with stats := ({} : RunStats), tick := m.tick + 1 + 1 } f hfs halready
    rw [hskip]
    dsimp only
    obtain ⟨hRfs, hRck, hRcfg, hRfiles, hRlen, hRgood⟩ :=
      resendPending_ok_all env hok
        { m with stats := ({} : RunStats), tick := m.tick + 1 + 1 } K hkey
        (fun r hr => (hrprops r hr).2.2)
    have hfilesB : (getDB (resendPending env none
        { m with stats := ({} : RunStats), tick := m.tick + 1 + 1 }).1).files =
        [pf1] := hRfiles.trans hfiles1
    have hfinEq := finalizeFiles_single env _ pf1 hfilesB hq3
    rw [hfinEq]
    dsimp only
    have hKB : (resendPending env none
        { m with stats := ({} : RunStats), tick := m.tick + 1 + 1 }).1.curKey =
        some K := hRck.trans hkey
    have hdsB : (resendPending env none
        { m with stats := ({} : RunStats), tick := m.tick + 1 + 1 }).1.cfg.DeleteAfterSend =
        true := by
      rw [hRcfg]
      exact hdel
    have hfileB : fsFind (resendPending env none
        { m with stats := ({} : RunStats), tick := m.tick + 1 + 1 }).1 pf1.path =
        some f := by
      rw [hq1]
      unfold fsFind
      rw [hRfs]
      exact hfs
    have hmatchB : ∀ r ∈ (getDB (resendPending env none
        { m with stats := ({} : RunStats), tick := m.tick + 1 + 1 }).1).events,
        (r.sourcePath == pf1.path) = true ∧ (r.fileSHA256 == pf1.sha256) = true ∧
        r.sentSyslog = true := by
      intro r hr
      obtain ⟨⟨r0, hr0, hsp, hsha⟩, hsent, herr⟩ := hRgood r hr
      obtain ⟨hr0p, hr0sha, -⟩ := hrprops r0 hr0
      refine ⟨?_, ?_, hsent⟩
      · rw [beq_iff_eq, hsp, hr0p, hq1]
      · rw [beq_iff_eq, hsha, hr0sha, hq2]
    have hneB : (getDB (resendPending env none
        { m with stats := ({} : RunStats), tick := m.tick + 1 + 1 }).1).events ≠ [] := by
      intro hc
      apply hne
      have hlen0 := congrArg List.length hc
      rw [hRlen] at hlen0
      exact List.length_eq_zero.mp hlen0
    obtain ⟨hFfs, hFck, hFcfg, hFev, hFfiles⟩ :=
      finalizeOne_complete env pf1
        (resendPending env none
          { m with stats := ({} : RunStats), tick := m.tick + 1 + 1 }).1
        K hKB hdsB hq3 hq4 f hfileB hmatchB hneB hfilesB
    refine ⟨rfl, ?_, ?_, ?_⟩
    · rw [← hq1]
      exact hFfs
    · intro r hr
      rw [hFev] at hr
      exact (hRgood r hr).2
    · exact hFfiles

set_option maxRecDepth 100000 in
/-- Witness for C1: concretely, a first cycle in which every send fails
leaves the file on disk and its event row unsent with a non-empty error,
and a second cycle in which every send succeeds marks the row sent with
the error cleared, marks the file row all-sent and deleted, and removes
the file from disk. -/
theorem claim_C1_at_least_once_witness :
    (RunOnce c1FailEnv c1M).2 = none ∧
    fsFind (RunOnce c1FailEnv c1M).1 "/in/a.warn" =
      some { path := "/in/a.warn", content := "FILE1" } ∧
    (∀ r ∈ (getDB (RunOnce c1FailEnv c1M).1).events,
       r.sourcePath = "/in/a.warn" ∧ r.fileSHA256 = sha256Hex "FILE1" ∧
       r.sentSyslog = false ∧ r.sendError ≠ "") ∧
    (RunOnce c1OkEnv (RunOnce c1FailEnv c1M).1).2 = none ∧
    fsFind (RunOnce c1OkEnv (RunOnce c1FailEnv c1M).1).1 "/in/a.warn" = none ∧
    (∀ r ∈ (getDB (RunOnce c1OkEnv (RunOnce c1FailEnv c1M).1).1).events,
       r.sentSyslog = true ∧ r.sendError = "") ∧
    (∀ q ∈ (getDB (RunOnce c1OkEnv (RunOnce c1FailEnv c1M).1).1).files,
       q.allSent = true ∧ q.deleted = true) :=
  ⟨(claim_C1_at_least_once.1 c1FailEnv c1M 202602 "g" "general" "/in/a.warn"
      { path := "/in/a.warn", content := "FILE1" } (JVal.jnum 7)
      rfl (by decide) (by decide) rfl (fun _ => rfl) rfl rfl rfl (by decide)
      (by decide) (by decide) (by decide) rfl (fun _ h => nomatch h) (by decide)
      (fun _ => rfl) (fun i => by show ("send error" : String) ≠ ""; decide)).1,
   (claim_C1_at_least_once.1 c1FailEnv c1M 202602 "g" "general" "/in/a.warn"
      { path := "/in/a.warn", content := "FILE1" } (JVal.jnum 7)
      rfl (by decide) (by decide) rfl (fun _ => rfl) rfl rfl rfl (by decide)
      (by decide) (by decide) (by decide) rfl (fun _ h => nomatch h) (by decide)
      (fun _ => rfl) (fun i => by show ("send error" : String) ≠ ""; decide)).2.2.2.1,
   (claim_C1_at_least_once.1 c1FailEnv c1M 202602 "g" "general" "/in/a.warn"
      { path := "/in/a.warn", content := "FILE1" } (JVal.jnum 7)
      rfl (by decide) (by decide) rfl (fun _ => rfl) rfl rfl rfl (by decide)
      (by decide) (by decide) (by decide) rfl (fun _ h => nomatch h) (by decide)
      (fun _ => rfl) (fun i => by show ("send error" : String) ≠ ""; decide)).2.2.2.2.2.2.2,
   (claim_C1_at_least_once.2 c1OkEnv (RunOnce c1FailEnv c1M).1 202602 "g"
      "general" "/in/a.warn" { path := "/in/a.warn", content := "FILE1" }
      (by decide) (by decide) (by decide) (by decide) (by decide)
      (fun _ => rfl) (by decide) (by decide) (by decide) (by decide)
      (by decide) (by decide) (by decide) (by decide) (by decide)
      (by decide) (fun _ => rfl)).1,
   (claim_C1_at_least_once.2 c1OkEnv (RunOnce c1FailEnv c1M).1 202602 "g"
      "general" "/in/a.warn" { path := "/in/a.warn", content := "FILE1" }
      (by decide) (by decide) (by decide) (by decide) (by decide)
      (fun _ => rfl) (by decide) (by decide) (by decide) (by decide)
      (by decide) (by decide) (by decide) (by decide) (by decide)
      (by decide) (fun _ => rfl)).2.1,
   (claim_C1_at_least_once.2 c1OkEnv (RunOnce c1FailEnv c1M).1 202602 "g"
      "general" "/in/a.warn" { path := "/in/a.warn", content := "FILE1" }
      (by decide) (by decide) (by decide) (by decide) (by decide)
      (fun _ => rfl) (by decide) (by decide) (by decide) (by decide)
      (by decide) (by decide) (by decide) (by decide) (by decide)
      (by decide) (fun _ => rfl)).2.2.1,
   (claim_C1_at_least_once.2 c1OkEnv (RunOnce c1FailEnv c1M).1 202602 "g"
      "general" "/in/a.warn" { path := "/in/a.warn", content := "FILE1" }
      (by decide) (by decide) (by decide) (by decide) (by decide)
      (fun _ => rfl) (by decide) (by decide) (by decide) (by decide)
      (by decide) (by decide) (by decide) (by decide) (by decide)
      (by decide) (fun _ => rfl)).2.2.2⟩

set_option maxRecDepth 40000 in
/-- C1 counterexample: in a cycle where the fresh delivery send of the
file's only event fails but the same cycle's immediately following resend
pass succeeds, the source file is already deleted and the event row
already shows sent=true with a cleared error after that very cycle — the
claim's "after that cycle the source file still exists on disk and that
event's row has sent=false with a non-empty send-error text" is false for
this run. -/
theorem claim_C1_counterexample :
    (∃ r ∈ (RunOnce c1Env c1M).1.sends, r.kind = SendKind.fresh ∧ r.ok = false) ∧
    (getDB (RunOnce c1Env c1M).1).events ≠ [] ∧
    (∀ ev ∈ (getDB (RunOnce c1Env c1M).1).events,
       ev.sentSyslog = true ∧ ev.sendError = "") ∧
    fsFind (RunOnce c1Env c1M).1 "/in/a.warn" = none := by decide

/-- C3.  With a replay start-time configured (and the monthly-rolling store
set up: folder and prefix non-blank, current key matching the clock's
month, store keys at most the current month, each event archived in its
store's month), a cycle does only replay: it ends without error, the
stores and the filesystem are untouched (so no sent/deleted/sent_at/error
field of any ProcessedFile or SpoolEvent row changes), every send of the
cycle is either the deadman heartbeat or the replay of an archived event
whose archived-at is at or after the start time, carrying the added
replay="true" item in its structured data — and conversely every archived
event at or after the start time is replayed. -/
theorem claim_C3_replay_only_nonmutating (env : Env) (m : M) (fromT K : Int)
    (hreplay : m.cfg.ReplayFrom = some fromT)
    (hT : m.cfg.Timeout = 0)
    (hf : goTrimSpace m.cfg.DBFolder ≠ "")
    (hp : goTrimSpace m.cfg.DBPrefix ≠ "")
    (hkey : m.curKey = some K)
    (hym : ∀ n, env.ym (env.clock n) = K)
    (hmono : ∀ a b : Int, a ≤ b → env.ym a ≤ env.ym b)
    (hbound : ∀ p ∈ m.stores, p.1 ≤ K)
    (hdates : ∀ p ∈ m.stores, ∀ ev ∈ p.2.events, env.ym ev.archivedAt = p.1) :
    (RunOnce env m).2 = none ∧
    (RunOnce env m).1.stores = m.stores ∧
    (RunOnce env m).1.fs = m.fs ∧
    ∃ l, (RunOnce env m).1.sends = m.sends ++ l ∧
      (∀ s ∈ l, s.kind = SendKind.deadman ∨
        (s.kind = SendKind.replay ∧
          ∃ p ∈ m.stores, ∃ ev ∈ p.2.events, fromT ≤ ev.archivedAt ∧
            s.sd = replaySD m.cfg ev ∧ s.msg = replayMsg env ev ∧
            goContains s.sd " replay=\"true\"" = true)) ∧
      (∀ p ∈ m.stores, ∀ ev ∈ p.2.events, fromT ≤ ev.archivedAt →
        ∃ s ∈ l, s.kind = SendKind.replay ∧ s.sd = replaySD m.cfg ev ∧
          s.msg = replayMsg env ev) := by
  have hens := ensureDB_noop env { m with stats := {}, tick := m.tick + 1 } K
    hf hkey (hym _)
  have hmain : runOnceMain env none { m with stats := {}, tick := m.tick + 1 } =
      replayStoreLoop env none fromT (listMonthlyDBs m.stores (env.ym fromT) K)
        { m with stats := {}, tick := m.tick + 1 + 1 + 1 } := by
    unfold runOnceMain
    rw [hens]
    dsimp only
    rw [hreplay]
    dsimp only
    rw [replayFrom_none_spec env fromT
      { m with stats := {}, tick := m.tick + 1 + 1 } hf hp]
    rw [hym]
  obtain ⟨e1, st1, fs1, ck1, cfg1, l1, hs1, hall1, hcov1⟩ :=
    replayStoreLoop_none env fromT (listMonthlyDBs m.stores (env.ym fromT) K)
      { m with stats := {}, tick := m.tick + 1 + 1 + 1 }
  have hsound : ∀ s ∈ l1, s.kind = SendKind.deadman ∨
      (s.kind = SendKind.replay ∧
        ∃ p ∈ m.stores, ∃ ev ∈ p.2.events, fromT ≤ ev.archivedAt ∧
          s.sd = replaySD m.cfg ev ∧ s.msg = replayMsg env ev ∧
          goContains s.sd " replay=\"true\"" = true) := by
    intro s hs
    obtain ⟨hk', p, hpd, ev, hev, ha, hsd, hmsg⟩ := hall1 s hs
    refine Or.inr ⟨hk', p, ((mem_listMonthlyDBs _ _ _ p).mp hpd).1, ev, hev, ha,
      hsd, hmsg, ?_⟩
    rw [hsd]
    exact replaySD_has_tag _ ev
  have hcover : ∀ p ∈ m.stores, ∀ ev ∈ p.2.events, fromT ≤ ev.archivedAt →
      ∃ s ∈ l1, s.kind = SendKind.replay ∧ s.sd = replaySD m.cfg ev ∧
        s.msg = replayMsg env ev := by
    intro p hp ev hev ha
    have hpd : p ∈ listMonthlyDBs m.stores (env.ym fromT) K := by
      refine (mem_listMonthlyDBs _ _ _ p).mpr ⟨hp, ?_, hbound p hp⟩
      rw [← hdates p hp ev hev]
      exact hmono _ _ ha
    exact hcov1 p hpd ev hev ha
  unfold RunOnce
  dsimp only [rnow]
  simp only [hT, gt_iff_lt, lt_self_iff_false, if_false]
  rw [hmain]
  generalize hX : replayStoreLoop env none fromT
    (listMonthlyDBs m.stores (env.ym fromT) K)
    { m with stats := {}, tick := m.tick + 1 + 1 + 1 } = X
  rw [hX] at e1 st1 fs1 ck1 cfg1 hs1
  split
  · refine ⟨e1, st1, fs1, l1, hs1, hsound, hcover⟩
  · obtain ⟨rec, hsends, hkind, hstores, hcur, hfs⟩ :=
      sendDeadman_shape env none (env.clock m.tick) (env.clock X.1.tick) X.2
        { X.1 with tick := X.1.tick + 1 }
    refine ⟨e1, hstores.trans st1, hfs.trans fs1, l1 ++ [rec], ?_, ?_, ?_⟩
    · rw [hsends, show ({ X.1 with tick := X.1.tick + 1 } : M).sends = X.1.sends
        from rfl, hs1, List.append_assoc]
    · intro s hs
      rcases List.mem_append.mp hs with hs | hs
      · exact hsound s hs
      · rw [List.mem_singleton] at hs
        rw [hs]
        exact Or.inl hkind
    · intro p hp ev hev ha
      obtain ⟨s, hs, hk', hsd, hmsg⟩ := hcover p hp ev hev ha
      exact ⟨s, List.mem_append_left _ hs, hk', hsd, hmsg⟩

set_option maxRecDepth 40000 in
/-- Witness for C3: a concrete two-event store (archived at 100 and 10)
with replay-from 50; the re-run cycle ends clean, mutates neither the
store tables nor the filesystem, replays exactly the event archived at
100 with the replay tag in its structured data, and the event archived
at 10 (before the start time) matches no replay hypothesis. -/
theorem claim_C3_replay_only_nonmutating_witness :
    c3M.cfg.ReplayFrom = some 50 ∧
    (RunOnce c2Env c3M).2 = none ∧
    (RunOnce c2Env c3M).1.stores = c3M.stores ∧
    (RunOnce c2Env c3M).1.fs = c3M.fs :=
  ⟨rfl,
   (claim_C3_replay_only_nonmutating c2Env c3M 50 202602 rfl rfl (by decide)
     (by decide) rfl (fun _ => rfl) (fun _ _ _ => le_refl 202602)
     (by decide) (by decide)).1,
   (claim_C3_replay_only_nonmutating c2Env c3M 50 202602 rfl rfl (by decide)
     (by decide) rfl (fun _ => rfl) (fun _ _ _ => le_refl 202602)
     (by decide) (by decide)).2.1,
   (claim_C3_replay_only_nonmutating c2Env c3M 50 202602 rfl rfl (by decide)
     (by decide) rfl (fun _ => rfl) (fun _ _ _ => le_refl 202602)
     (by decide) (by decide)).2.2.1⟩

/-- C8.  The tagger returns "none" on an empty code list; otherwise it
returns the first configured code (case-folded, trimmed, blanks skipped)
occurring as a substring of the case-folded raw text, "none" when none
matches — stated as equality with the spec-modelled `specTag`; and in
`buildEvent` whether tagging is applied depends only on the code list being
non-empty, with the deprecated `CCCCEnabled` flag ignored entirely. -/
theorem claim_C8_tagger_contract :
    (∀ text : String, ExtractCCCC text [] = "none") ∧
    (∀ (text : String) (codes : List String), ExtractCCCC text codes = specTag text codes) ∧
    (∀ (env : Env) (cfg : RunnerConfig) (b : Bool) (item : JVal)
       (raw sp st at_ fs : String) (idx : Int) (now : Int),
       buildEvent env { cfg with CCCCEnabled := b } item raw sp st at_ fs idx now =
         buildEvent env cfg item raw sp st at_ fs idx now) ∧
    (∀ (env : Env) (cfg : RunnerConfig) (item : JVal)
       (raw sp st at_ fs : String) (idx : Int) (now : Int),
       (buildEvent env cfg item raw sp st at_ fs idx now).cccc =
         if cfg.CCCCCodes.length > 0 then
           ExtractCCCC (extractKeyText env item) cfg.CCCCCodes
         else "none") := by
  refine ⟨fun _ => rfl, ?_, fun _ _ _ _ _ _ _ _ _ _ _ => rfl,
          fun _ _ _ _ _ _ _ _ _ _ => rfl⟩
  intro text codes
  cases codes with
  | nil => rfl
  | cons c rest =>
    show ExtractCCCC text (c :: rest) = specTag text (c :: rest)
    unfold ExtractCCCC specTag
    rw [extractCCCC_go_eq]
    simp

/-- C9.  The flattener never emits more than `MaxKeys` entries — when the
cap is hit the traversal just stops adding, returning the partial map — and
a call on a subtree at a depth strictly beyond `MaxDepth` does not recurse
into the value at all: with budget left and a non-empty path it stores the
single placeholder naming the bound (the right-hand side does not depend on
the subtree), and with the cap already reached it returns the map
unchanged. -/
theorem claim_C9_flatten_bounds :
    (∀ (v : JVal) (opts : FlattenOptions), 0 < opts.MaxDepth → 0 < opts.MaxKeys →
       ((FlattenJSON v opts).length : Int) ≤ opts.MaxKeys) ∧
    (∀ (opts : FlattenOptions) (f : Nat) (out : List (String × JVal)) (pfx : String)
       (v : JVal) (depth : Int), depth > opts.MaxDepth →
       (out.length : Int) < opts.MaxKeys → pfx ≠ "" →
       flattenInto opts (f + 1) out pfx v depth =
         mapSet out pfx (JVal.jstr ("<max_depth:" ++ toString opts.MaxDepth ++ ">"))) ∧
    (∀ (opts : FlattenOptions) (f : Nat) (out : List (String × JVal)) (pfx : String)
       (v : JVal) (depth : Int), (out.length : Int) ≥ opts.MaxKeys →
       flattenInto opts (f + 1) out pfx v depth = out) := by
  refine ⟨?_, ?_, ?_⟩
  · intro v opts hd hk
    unfold FlattenJSON
    have hd' : ¬ opts.MaxDepth ≤ 0 := by omega
    have hk' : ¬ opts.MaxKeys ≤ 0 := by omega
    simp only [hd', if_false, hk', if_false]
    exact flattenInto_length _ _ [] "" v 0 (by simpa using le_of_lt hk)
  · intro opts f out pfx v depth hd hk hp
    simp [flattenInto, not_le.mpr hk, hd, hp]
  · intro opts f out pfx v depth hk
    simp [flattenInto, hk]

/-- Witness for C9 at a concrete input: options (2,2) on a nested object;
the flattened map has at most 2 entries, and a depth-3 subtree call with
budget left replaces the subtree by the placeholder. -/
theorem claim_C9_flatten_bounds_witness :
    (0 : Int) < 2 ∧
    ((FlattenJSON (JVal.jobj [("a", JVal.jnum 1), ("b", JVal.jnum 2), ("c", JVal.jnum 3)])
        { MaxDepth := 2, MaxKeys := 2 }).length : Int) ≤ 2 ∧
    flattenInto { MaxDepth := 2, MaxKeys := 2 } 1 [] "k" (JVal.jobj [("d", JVal.jnum 4)]) 3 =
      [("k", JVal.jstr "<max_depth:2>")] :=
  ⟨by decide,
   claim_C9_flatten_bounds.1 _ { MaxDepth := 2, MaxKeys := 2 } (by decide) (by decide),
   claim_C9_flatten_bounds.2.1 { MaxDepth := 2, MaxKeys := 2 } 0 [] "k"
     (JVal.jobj [("d", JVal.jnum 4)]) 3 (by decide) (by decide) (by decide)⟩

/-- C10.  Every configuration the Runner constructor accepts comes out with
`DeleteAfterSend = true`: the constructor overwrites a false value, so
source-file deletion after confirmed send and archive cannot be disabled. -/
theorem claim_C10_delete_after_send_forced :
    ∀ (cfg cfg' : RunnerConfig), NewRunner cfg = Except.ok cfg' →
      cfg'.DeleteAfterSend = true := by
  intro cfg cfg' h
  unfold NewRunner at h
  split at h
  · exact absurd h (by simp)
  · split at h
    · exact absurd h (by simp)
    · split at h
      · exact absurd h (by simp)
      · split at h
        · exact absurd h (by simp)
        · rw [Except.ok.injEq] at h
          subst h
          by_cases h1 : cfg.ServiceLabel = "" <;> by_cases h2 : cfg.HashHexLen ≤ 0 <;>
            by_cases hd : cfg.DeleteAfterSend <;> simp [h1, h2, hd]

/-- Witness for C10: a concrete config with `DeleteAfterSend := false` is
accepted and coerced to true. -/
theorem claim_C10_delete_after_send_forced_witness :
    NewRunner c10InCfg = Except.ok c10OutCfg ∧ c10OutCfg.DeleteAfterSend = true :=
  ⟨by rfl, claim_C10_delete_after_send_forced c10InCfg c10OutCfg (by rfl)⟩

end AlertSpooler
